import Mathlib

/-!
Shallow embedding of the syntaq markup processor (syntaq.py) in Lean 4.

The embedding models, character-for-character, the components the
specification talks about:
  * the `HTML` output writer (entity escaping, deferred text buffer,
    open-tag stack, balanced closing),
  * the `Partitioner` marker lexer,
  * the `Text` inline renderer (including URL auto-linking, which in the
    source is the compiled regular expression `URI_PATTERN`; here it is an
    explicit backtracking matcher over the same pattern),
  * `Heading`, `ListItem`, `TableRow`,
  * the `Document` line classifier.

Python strings are modelled as `String` / `List Char`; Python lists by
`List`; dicts with distinct keys by association lists; exceptions by
`Except String`.  The writer's open-tag stack is kept head-innermost
(Python appends/pops at the right end; the order of closing is the same).
Loops whose termination is not structural use an explicit fuel that is
always sufficient on the inputs the source can produce.
-/

namespace Syntaq

/-! ## Python string helpers -/

/-- The characters of Python's `string.whitespace` (what `str.strip()` and
friends remove for ASCII text). -/
def isPySpace (c : Char) : Bool :=
  c = ' ' || c = '\t' || c = '\n' || c = '\r' || c = '\x0b' || c = '\x0c'

/-- `str.lstrip()` -/
def pyLstrip (s : String) : String :=
  String.mk (s.data.dropWhile isPySpace)

/-- `str.rstrip()` -/
def pyRstrip (s : String) : String :=
  String.mk ((s.data.reverse.dropWhile isPySpace).reverse)

/-- `str.strip()` -/
def pyStrip (s : String) : String :=
  pyLstrip (pyRstrip s)

/-- `str.rstrip(chars)` for a single character. -/
def pyRstripChar (c : Char) (s : String) : String :=
  String.mk ((s.data.reverse.dropWhile (· = c)).reverse)

/-- `str.lstrip(chars)` for a single character. -/
def pyLstripChar (c : Char) (s : String) : String :=
  String.mk (s.data.dropWhile (· = c))

/-- `str.startswith(pre)` -/
def pyStartsWith (s pre : String) : Bool :=
  s.data.take pre.data.length = pre.data

/-- `str.endswith(suf)` -/
def pyEndsWith (s suf : String) : Bool :=
  s.data.reverse.take suf.data.length = suf.data.reverse

/-- `"".join(tokens)`: concatenation of a list of strings. -/
def joinAll (l : List String) : String :=
  String.mk (l.map String.data).flatten

/-- `" ".join(parts)` -/
def joinSpace : List String → String
  | [] => ""
  | [x] => x
  | x :: xs => x ++ " " ++ joinSpace xs

/-- The slice `s[a:b]` of a character list. -/
def slice (s : List Char) (a b : Nat) : List Char :=
  (s.drop a).take (b - a)

/-- `str.partition(sep)` (single-character separator), first component. -/
def partFst (sep : Char) (s : String) : String :=
  String.mk (s.data.takeWhile (· ≠ sep))

/-- `str.partition(sep)` (single-character separator), last component
(empty when the separator does not occur). -/
def partSnd (sep : Char) (s : String) : String :=
  match s.data.dropWhile (· ≠ sep) with
  | [] => ""
  | _ :: rest => String.mk rest

/-- Worker for `splitKeepEnds`; `acc` holds the current line reversed. -/
def splitKeepEndsGo : List Char → List Char → List String
  | acc, [] => if acc = [] then [] else [String.mk acc.reverse]
  | acc, '\r' :: '\n' :: rest =>
    String.mk (acc.reverse ++ ['\r', '\n']) :: splitKeepEndsGo [] rest
  | acc, '\r' :: rest => String.mk (acc.reverse ++ ['\r']) :: splitKeepEndsGo [] rest
  | acc, '\n' :: rest => String.mk (acc.reverse ++ ['\n']) :: splitKeepEndsGo [] rest
  | acc, c :: rest => splitKeepEndsGo (c :: acc) rest

/-- `str.splitlines(True)` restricted to the line breaks the source
documents use (`\n`, `\r\n`, `\r`); line ends are kept. -/
def splitKeepEnds (s : String) : List String :=
  splitKeepEndsGo [] s.data

/-! ## The HTML output writer (`class HTML`) -/

/-- `HTML.entities`: replacement list for one character. -/
def entityChar (c : Char) : List Char :=
  if c = '&' then "&amp;".data
  else if c = '\'' then "&apos;".data
  else if c = '"' then "&quot;".data
  else if c = '<' then "&lt;".data
  else if c = '>' then "&gt;".data
  else [c]

/-- `HTML.entities(text)`: per-character escaping joined back together. -/
def entities (s : String) : String :=
  String.mk (s.data.map entityChar).flatten

/-- Ghost trace of the structural tag activity of a writer: `openT t` is
recorded when `start_tag` pushes `t`, `close t` when a closing tag for `t`
is written by `end_tag`/`close`.  The trace is not part of the Python
state; it only lets balancedness of the emitted tags be stated. -/
inductive TagEvent where
  | openT (t : String)
  | close (t : String)
deriving DecidableEq

/-- The writer state: emitted fragments (`self.tokens`), the open-tag
stack (`self.stack`, head = innermost; Python keeps the innermost at the
right end), the deferred text buffer (`self.token_buffer`, a list of
characters in Python as well), the flush processor, and the ghost tag
trace. -/
structure Writer where
  tokens : List String
  stack : List String
  buffer : List Char
  processor : String → String
  events : List TagEvent

/-- `HTML.__init__(processor)` (default processor: `HTML.entities`). -/
def Writer.init (proc : String → String) : Writer :=
  ⟨[], [], [], proc, []⟩

/-- `html` property: `"".join(self.tokens)`. -/
def Writer.html (out : Writer) : String :=
  joinAll out.tokens

/-- `HTML._flush`. -/
def Writer.flush (out : Writer) : Writer :=
  if out.buffer = [] then out
  else { out with tokens := out.tokens ++ [out.processor (String.mk out.buffer)],
                  buffer := [] }

/-- `HTML.write_html`. -/
def Writer.writeHtml (out : Writer) (html : String) : Writer :=
  let o := out.flush
  { o with tokens := o.tokens ++ [html] }

/-- `HTML.write_text(text, post_process)`.  Deferred text extends the
character buffer; immediate text is flushed, escaped and emitted
character by character (`self.tokens.extend(HTML.entities(text))`). -/
def Writer.writeText (out : Writer) (text : String) (postProcess : Bool) : Writer :=
  if postProcess then { out with buffer := out.buffer ++ text.data }
  else
    let o := out.flush
    { o with tokens := o.tokens ++ (entities text).data.map Char.toString }

/-- `HTML.write_raw`. -/
def Writer.writeRaw (out : Writer) (text : String) : Writer :=
  let o := out.flush
  { o with tokens := o.tokens ++ text.data.map Char.toString }

/-- One `key="value"` attribute item; an attribute whose value is absent
(`None`) is omitted. -/
def attrItem (kv : String × Option String) : Option String :=
  kv.2.map (fun v => kv.1 ++ "=\"" ++ entities v ++ "\"")

/-- Code-point lexicographic `<` on strings, as a computable Boolean
(the order Python's `sorted` uses on `str` keys). -/
def strLt : List Char → List Char → Bool
  | [], [] => false
  | [], _ :: _ => true
  | _ :: _, [] => false
  | a :: as, b :: bs =>
    if a.toNat < b.toNat then true
    else if b.toNat < a.toNat then false
    else strLt as bs

/-- `<` on attribute keys. -/
def keyLt (a b : String) : Bool :=
  strLt a.data b.data

/-- Stable insertion of one attribute into a key-sorted list (Python's
`sorted` on dict items; keys are distinct in every use). -/
def insertByKey (x : String × Option String) :
    List (String × Option String) → List (String × Option String)
  | [] => [x]
  | y :: ys => if keyLt y.1 x.1 then y :: insertByKey x ys else x :: y :: ys

/-- `sorted(attributes.items())` on an association list. -/
def sortByKey : List (String × Option String) → List (String × Option String)
  | [] => []
  | x :: xs => insertByKey x (sortByKey xs)

/-- `HTML.tag(tag, attributes)`. -/
def Writer.tag (out : Writer) (t : String) (attrs : List (String × Option String)) :
    Writer :=
  if attrs = [] then out.writeHtml ("<" ++ t ++ ">")
  else out.writeHtml
    ("<" ++ t ++ " " ++ joinSpace ((sortByKey attrs).filterMap attrItem) ++ ">")

/-- `HTML.start_tag(tag, attributes, void)`. -/
def Writer.startTag (out : Writer) (t : String)
    (attrs : List (String × Option String)) (void : Bool) : Writer :=
  let o := out.tag t attrs
  if void then o
  else { o with stack := t :: o.stack, events := o.events ++ [TagEvent.openT t] }

/-- The closing-tag string `</t>`. -/
def closeStr (t : String) : String :=
  "</" ++ t ++ ">"

/-- The pop-and-write loop of `HTML.end_tag`: pop tags (the list argument
is the writer's stack), writing each closing tag, until `t` itself has
been popped. -/
def Writer.closeTo (t : String) : List String → Writer → Writer
  | [], out => out
  | top :: rest, out =>
    let o := Writer.writeHtml { out with stack := rest } (closeStr top)
    let o := { o with events := o.events ++ [TagEvent.close top] }
    if top = t then o else Writer.closeTo t rest o

/-- `HTML.end_tag(tag=None)`.  Python's falsy test `if not tag` treats an
empty string like an omitted argument. -/
def Writer.endTag (out : Writer) (tagArg : Option String) : Except String Writer :=
  match out.stack with
  | [] => .error "No tags to close"
  | top :: _ =>
    let t := match tagArg with
      | none => top
      | some s => if s = "" then top else s
    if t ∈ out.stack then .ok (Writer.closeTo t out.stack out)
    else .error ("End tag </" ++ t ++ "> should have corresponding start tag <" ++ t ++ ">")

/-- `HTML.element(tag, attributes, html, text, raw)`.  Python passes the
contents as keyword arguments defaulting to `None` and tests them for
truthiness, so `None` and `""` behave alike; absent contents are modelled
as `""`. -/
def Writer.element (out : Writer) (t : String)
    (attrs : List (String × Option String)) (htmlC textC rawC : String) :
    Except String Writer :=
  if ((if htmlC = "" then 0 else 1) + (if textC = "" then 0 else 1)
      + (if rawC = "" then 0 else 1) : Nat) > 1 then
    .error "Cannot specify multiple content types"
  else
    let o := out.startTag t attrs false
    let o := if htmlC = "" then o else o.writeHtml htmlC
    let o := if textC = "" then o else o.writeText textC false
    let o := if rawC = "" then o else o.writeRaw rawC
    o.endTag none

/-- `element` at a call site where at most one content kind is supplied
and a tag was just pushed, so no exception can occur; the fallback arm is
unreachable there. -/
def Writer.elementD (out : Writer) (t : String)
    (attrs : List (String × Option String)) (htmlC textC rawC : String) : Writer :=
  match out.element t attrs htmlC textC rawC with
  | .ok o => o
  | .error _ => out

/-- The pop-everything loop of `HTML.close` (the list argument is the
writer's stack). -/
def Writer.closeAllLoop : List String → Writer → Writer
  | [], out => out
  | top :: rest, out =>
    let o := Writer.writeHtml { out with stack := rest } (closeStr top)
    let o := { o with events := o.events ++ [TagEvent.close top] }
    Writer.closeAllLoop rest o

/-- `HTML.close`: flush, then pop every remaining tag, innermost first. -/
def Writer.closeOut (out : Writer) : Writer :=
  let o := out.flush
  Writer.closeAllLoop o.stack o

/-! ## The marker lexer (`class Partitioner`) -/

/-- `Partitioner.__init__`: `self.markers` is the escape (when non-empty)
followed by the marker list. -/
def allMarkers (escape : String) (markers : List String) : List String :=
  (if escape = "" then [] else [escape]) ++ markers

/-- `self.marker_chars`: the first characters of the markers (a set in
Python; only membership is used). -/
def markerFirstChars (markers : List String) : List Char :=
  markers.filterMap (fun m => m.data.head?)

/-- The position candidate markers are tried at: past the escape when the
current character is exactly the (non-empty) escape, else the cursor. -/
def escStart (escape : String) (c : Char) (q : Nat) : Nat :=
  if escape ≠ "" ∧ escape = String.mk [c] then q + escape.length else q

/-- The scanning loop of `Partitioner.partition` over `s` with run start
`p` and cursor `q`.  The structure mirrors the Python loop: at a marker
first-character, candidate markers are tried in order at `q` (or past the
escape); on a match the pending literal run and the matched slice are
yielded and both indices jump past the match; otherwise the cursor moves
on.  `fuel` only forces termination; `s.length + 1` is enough whenever
every marker is non-empty (an empty marker would make the Python
generator yield empty tokens forever). -/
def partitionGo (escape : String) (markers : List String) (mchars : List Char)
    (s : List Char) : Nat → Nat → Nat → List (List Char)
  | 0, _, _ => []
  | fuel + 1, p, q =>
    match s.get? q with
    | none => if p < q then [slice s p q] else []
    | some c =>
      if c ∈ mchars then
        let start := escStart escape c q
        match markers.find? (fun seq => decide (slice s start (start + seq.length) = seq.data)) with
        | some seq =>
          let e := start + seq.length
          (if p < q then [slice s p q] else []) ++ [slice s q e]
            ++ partitionGo escape markers mchars s fuel e e
        | none => partitionGo escape markers mchars s fuel p (q + 1)
      else partitionGo escape markers mchars s fuel p (q + 1)

/-- `Partitioner(escape, *markers).partition(source)` as a list of string
tokens. -/
def partition (escape : String) (markers : List String) (source : String) :
    List String :=
  let ms := allMarkers escape markers
  (partitionGo escape ms (markerFirstChars ms) source.data
      (source.data.length + 1) 0 0).map String.mk

/-! ## `URI_PATTERN` and `auto_link`

The source compiles the regular expression

  `(?i)\b((?:[a-z][\w-]+:(?:/{1,3}|[a-z0-9%])|www\d{0,3}[.]|[a-z0-9.\-]+[.][a-z]{2,4}/)`
  `(?:[^\s()<>]+|\(([^\s()<>]+|(\([^\s()<>]+\)))*\))+`
  `(?:\(([^\s()<>]+|(\([^\s()<>]+\)))*\)|[^\s!()\[\]\x7b\x7d;:'".,<>?«»“”‘’`]))`

and splits text on it; group 1 spans the whole match.  Here the pattern is
an explicit abstract syntax tree and a backtracking matcher with Python
`re` semantics: leftmost match, ordered alternation, greedy repetition.
-/

/-- `\w` (ASCII reading, which covers all source inputs). -/
def isWordChar (c : Char) : Bool :=
  c.isAlphanum || c = '_'

/-- Regular-expression syntax: character class, sequence, ordered
alternation, greedy star / plus / counted repetition, word boundary. -/
inductive RE where
  | cls (p : Char → Bool)
  | seq (a b : RE)
  | alt (a b : RE)
  | star (a : RE)
  | plus (a : RE)
  | rep (a : RE) (lo hi : Nat)
  | wordB

/-- Backtracking matcher in continuation style.  `prev` is the character
just before the current position (for `\b`); the continuation receives
the updated `prev` and the remaining input; the first success in
backtracking order (Python's) is returned.  `fuel` bounds the recursion
depth and is always sufficient for the generous bound used below. -/
def matchRE : Nat → RE → Option Char → List Char →
    (Option Char → List Char → Option (List Char)) → Option (List Char)
  | 0, _, _, _, _ => none
  | fuel + 1, r, prev, s, k =>
    match r with
    | .cls p =>
      match s with
      | [] => none
      | c :: cs => if p c then k (some c) cs else none
    | .seq a b => matchRE fuel a prev s (fun p' s' => matchRE fuel b p' s' k)
    | .alt a b =>
      match matchRE fuel a prev s k with
      | some res => some res
      | none => matchRE fuel b prev s k
    | .star a =>
      match matchRE fuel a prev s (fun p' s' => matchRE fuel (.star a) p' s' k) with
      | some res => some res
      | none => k prev s
    | .plus a => matchRE fuel (.seq a (.star a)) prev s k
    | .rep a lo hi =>
      match lo, hi with
      | 0, 0 => k prev s
      | 0, h + 1 =>
        match matchRE fuel a prev s (fun p' s' => matchRE fuel (.rep a 0 h) p' s' k) with
        | some res => some res
        | none => k prev s
      | l + 1, h => matchRE fuel a prev s (fun p' s' => matchRE fuel (.rep a l (h - 1)) p' s' k)
    | .wordB =>
      let before := match prev with | none => false | some c => isWordChar c
      let after := match s with | [] => false | c :: _ => isWordChar c
      if before ≠ after then k prev s else none

/-- `[^\s()<>]` (`\s` read as ASCII whitespace). -/
def isPlainUriChar (c : Char) : Bool :=
  !(isPySpace c || c = '(' || c = ')' || c = '<' || c = '>')

/-- The character class excluded at the end of a URI match (trailing
punctuation, including the Unicode quotation marks in the pattern). -/
def isUriTailChar (c : Char) : Bool :=
  !(isPySpace c || c = '`' || c = '!' || c = '(' || c = ')' || c = '[' || c = ']'
    || c = '\x7b' || c = '\x7d' || c = ';' || c = ':' || c = '\'' || c = '"'
    || c = '.' || c = ',' || c = '<' || c = '>' || c = '?'
    || c = '«' || c = '»' || c = '“' || c = '”' || c = '‘' || c = '’')

/-- One literal character, case-insensitively (the pattern has `(?i)`). -/
def chCI (c : Char) : RE :=
  .cls (fun x => x.toLower = c)

/-- One literal character. -/
def chE (c : Char) : RE :=
  .cls (fun x => x = c)

/-- `[^\s()<>]+|(\([^\s()<>]+\))`: the inner alternative of the
parenthesis-balancing groups. -/
def uriInner : RE :=
  .alt (.plus (.cls isPlainUriChar))
    (.seq (chE '(') (.seq (.plus (.cls isPlainUriChar)) (chE ')')))

/-- `\(([^\s()<>]+|(\([^\s()<>]+\)))*\)` -/
def uriParen : RE :=
  .seq (chE '(') (.seq (.star uriInner) (chE ')'))

/-- `[a-z][\w-]+:(?:/{1,3}|[a-z0-9%])` -/
def uriSchemeA : RE :=
  .seq (.cls Char.isAlpha)
    (.seq (.plus (.cls (fun c => isWordChar c || c = '-')))
      (.seq (chE ':')
        (.alt (.rep (chE '/') 1 3) (.cls (fun c => c.isAlphanum || c = '%')))))

/-- `www\d{0,3}[.]` -/
def uriSchemeB : RE :=
  .seq (chCI 'w') (.seq (chCI 'w') (.seq (chCI 'w')
    (.seq (.rep (.cls Char.isDigit) 0 3) (chE '.'))))

/-- `[a-z0-9.\-]+[.][a-z]{2,4}/` -/
def uriSchemeC : RE :=
  .seq (.plus (.cls (fun c => c.isAlphanum || c = '.' || c = '-')))
    (.seq (chE '.') (.seq (.rep (.cls Char.isAlpha) 2 4) (chE '/')))

/-- The whole `URI_PATTERN`. -/
def uriRE : RE :=
  .seq .wordB
    (.seq (.alt uriSchemeA (.alt uriSchemeB uriSchemeC))
      (.seq (.plus (.alt (.plus (.cls isPlainUriChar)) uriParen))
        (.alt uriParen (.cls isUriTailChar))))

/-- Matcher fuel: ample for the pattern depth on inputs of length `n`. -/
def uriFuel (n : Nat) : Nat :=
  64 * (n + 4) + 256

/-- Try `URI_PATTERN` at the current position; `some rest` leaves the
input after the match. -/
def uriMatchAt (prev : Option Char) (s : List Char) : Option (List Char) :=
  matchRE (uriFuel s.length) uriRE prev s (fun _ rest => some rest)

/-- Leftmost match: returns `(before, matched, rest)`. -/
def uriSearchGo : Nat → Option Char → List Char → List Char →
    Option (List Char × List Char × List Char)
  | 0, _, _, _ => none
  | fuel + 1, prev, acc, s =>
    match uriMatchAt prev s with
    | some rest => some (acc.reverse, s.take (s.length - rest.length), rest)
    | none =>
      match s with
      | [] => none
      | c :: cs => uriSearchGo fuel (some c) (c :: acc) cs

/-- First `URI_PATTERN` match in `text` (what drives `re.split` in
`auto_link`). -/
def uriFirst (text : String) : Option (List Char × List Char × List Char) :=
  uriSearchGo (text.data.length + 1) none [] text.data

/-- The match/gap loop of `auto_link`: write the text before each match,
wrap each matched URL in an anchor element whose href and body are the
URL, and continue after it. -/
def autoLinkGo : Nat → Option Char → List Char → Writer → Writer
  | 0, _, _, out => out
  | fuel + 1, prev, s, out =>
    match uriSearchGo (s.length + 1) prev [] s with
    | none => out.writeText (String.mk s) false
    | some (before, url, rest) =>
      let out := out.writeText (String.mk before) false
      let out := out.elementD "a" [("href", some (String.mk url))] "" (String.mk url) ""
      let prev' := match (before ++ url).getLast? with
        | some c => some c
        | none => prev
      autoLinkGo fuel prev' rest out

/-- `auto_link(text)`. -/
def autoLink (text : String) : String :=
  (autoLinkGo (text.data.length + 1) none text.data (Writer.init entities)).html

/-! ## The inline renderer (`class Text`) -/

/-- The marker list handed to the `Partitioner` in `Text.__init__`, in
source order (`Quote.BLOCK_DELIMITER` is `"""`,
`Preformatted.BLOCK_START/END` are `\x7b\x7b\x7b` / `\x7d\x7d\x7d`,
`Code.INLINE_DELIMITER` is ```` `` ````, `Quote.INLINE_DELIMITER` is
`""`). -/
def textMarkers : List String :=
  ["http://", "https://", "ftp://", "mailto:", "<<", ">>",
   "\"\"\"", "\x7b\x7b\x7b", "\x7d\x7d\x7d", "<--", "-->",
   "\\\\", "\x7b\x7b", "\x7d\x7d", "``", "\"\"",
   "**", "//", "^^", ",,", "[[", "]]", "|"]

/-- `self.markers` of the `Text` partitioner: escape first. -/
def textPartMarkers : List String :=
  allMarkers "~" textMarkers

/-- `Text(source).tokens`. -/
def textTokens (source : String) : List String :=
  partition "~" textMarkers source

/-- `SIMPLE_TOKENS`. -/
def simpleTokens : List (String × String) :=
  [("\\\\", "<br>"), ("-->", "&rarr;"), ("<--", "&larr;")]

/-- `TOGGLE_TOKENS`. -/
def toggleTokens : List (String × String) :=
  [("//", "em"), ("\"\"", "q"), ("**", "strong"), (",,", "sub"), ("^^", "sup")]

/-- The type-specific writers held in `BRACKET_TOKENS`. -/
inductive BWriter where
  | script
  | code
  | image
  | pre
deriving DecidableEq

/-- `BRACKET_TOKENS`: opening marker ↦ (closing marker, writer). -/
def bracketTokens : List (String × String × BWriter) :=
  [("<<", (">>", .script)),
   ("``", ("``", .code)),
   ("\x7b\x7b", ("\x7d\x7d", .image)),
   ("\x7b\x7b\x7b", ("\x7d\x7d\x7d", .pre))]

/-- `code_writer` / `image_writer` / `pre_writer` / `script_writer`. -/
def applyWriter : BWriter → Writer → String → Writer
  | .script, out, source => out.elementD "script" [] "" "" source
  | .code, out, source => out.elementD "code" [] "" source ""
  | .image, out, source =>
    let src := partFst '|' source
    let alt := partSnd '|' source
    out.tag "img" [("src", some src), ("alt", if alt = "" then none else some alt)]
  | .pre, out, source => out.writeText source false

/-- The accumulation loop of a bracketed token: gather tokens (escape
prefixes stripped) until the closing token or the end of the stream;
returns the gathered source parts and the remaining tokens. -/
def collectBracket (endTok : String) : List String → List String × List String
  | [] => ([], [])
  | t :: ts =>
    if t = endTok then ([], ts)
    else
      let (src, rest) := collectBracket endTok ts
      match t.data with
      | '~' :: r => (String.mk r :: src, rest)
      | _ => (t :: src, rest)

/-- The href-accumulation loop of a `[[` token.  Returns the href parts,
the final value of the Python loop variable `token` (unchanged when the
stream was already empty, the last consumed token otherwise), and the
remaining tokens. -/
def collectHref (lastTok : String) : List String → List String × String × List String
  | [] => ([], lastTok, [])
  | t :: ts =>
    if t = "|" ∨ t = "]]" then ([], t, ts)
    else
      let res := collectHref t ts
      match t.data with
      | '~' :: r => (String.mk r :: res.1, res.2.1, res.2.2)
      | _ => (t :: res.1, res.2.1, res.2.2)

/-- The token-consumption loop of `Text.html`.  `fuel` only forces
termination; every iteration consumes at least one token, so
`tokens.length + 1` is enough. -/
def textHtmlGo : Nat → List String → Writer → Writer
  | 0, _, out => out
  | _ + 1, [], out => out
  | fuel + 1, token :: tokens, out =>
    match token.data with
    | '~' :: r => textHtmlGo fuel tokens (out.writeText (String.mk r) false)
    | _ =>
      match simpleTokens.lookup token with
      | some html => textHtmlGo fuel tokens (out.writeHtml html)
      | none =>
        match toggleTokens.lookup token with
        | some tg =>
          if tg ∈ out.stack then
            match out.endTag (some tg) with
            | .ok o => textHtmlGo fuel tokens o
            | .error _ => textHtmlGo fuel tokens out
          else textHtmlGo fuel tokens (out.startTag tg [] false)
        | none =>
          match bracketTokens.lookup token with
          | some (endTok, w) =>
            let (src, rest) := collectBracket endTok tokens
            textHtmlGo fuel rest (applyWriter w out (joinAll src))
          | none =>
            if token = "[[" then
              let (href, lastTok, rest) := collectHref token tokens
              let hrefS := joinAll href
              let out := out.startTag "a" [("href", some hrefS)] false
              if lastTok ≠ "|" then
                let out := out.writeText hrefS false
                match out.endTag (some "a") with
                | .ok o => textHtmlGo fuel rest o
                | .error _ => textHtmlGo fuel rest out
              else textHtmlGo fuel rest out
            else if token = "]]" then
              match out.endTag (some "a") with
              | .ok o => textHtmlGo fuel tokens o
              | .error _ => textHtmlGo fuel tokens (out.writeText token false)
            else textHtmlGo fuel tokens (out.writeText token true)

/-- `Text(source).html` with an explicit flush processor. -/
def textHtmlWith (proc : String → String) (source : String) : String :=
  let tokens := textTokens source
  ((textHtmlGo (tokens.length + 1) tokens (Writer.init proc)).closeOut).html

/-- `Text(source).html` (the source uses `HTML(processor=auto_link)`). -/
def textHtml (source : String) : String :=
  textHtmlWith autoLink source

/-! ## Headings (`class Heading`) -/

/-- `Heading.check(source)`: `source.startswith("=")`. -/
def headingCheck (source : String) : Bool :=
  pyStartsWith source "="

/-- A parsed heading: the count of leading `=` (capped at 6 by
`__init__`) and the stripped text. -/
structure Heading where
  level : Nat
  text : String
deriving DecidableEq

/-- `Heading.__init__` (after its check): count and drop the leading `=`
run, strip the rest, drop trailing `=` and trailing whitespace, cap the
level at 6. -/
def mkHeading (source : String) : Heading :=
  let eqs := source.data.takeWhile (· = '=')
  let rest := source.data.dropWhile (· = '=')
  let level := eqs.length
  let text := pyRstrip (pyRstripChar '=' (pyStrip (String.mk rest)))
  { level := if level > 6 then 6 else level, text := text }

/-- `Heading.html`. -/
def headingHtml (h : Heading) : String :=
  let tag := "h" ++ toString h.level
  let out := (Writer.init entities).startTag tag [] false
  let out := out.writeText h.text false
  let out := out.elementD "a" [("href", some "#")] "" "" "&sect;"
  let out := match out.endTag (some tag) with
    | .ok o => o
    | .error _ => out
  out.html

/-! ## List items (`class ListItem`) -/

/-- A parsed list item: marker signature, level, and the `Text` token
list of the item body. -/
structure ListItem where
  signature : List Char
  level : Nat
  item : List String
deriving DecidableEq

/-- `ListItem.check(source, content_type)`: a line opening with `**` only
continues an existing list-item block. -/
def listItemCheck (source : String) (inListItemBlock : Bool) : Bool :=
  if inListItemBlock || !(pyStartsWith source "**") then
    match source.data with
    | [] => false
    | c :: _ => c = '#' || c = '*'
  else false

/-- `ListItem.__init__`. -/
def mkListItem (source : String) : ListItem :=
  let sig := source.data.takeWhile (fun c => c = '#' || c = '*')
  let rest := source.data.dropWhile (fun c => c = '#' || c = '*')
  { signature := sig, level := sig.length,
    item := textTokens (pyStrip (String.mk rest)) }

/-- `ListItem.compatible(other)`. -/
def ListItem.compatible (a b : ListItem) : Bool :=
  let m := min a.signature.length b.signature.length
  a.signature.take m = b.signature.take m

/-! ## Table rows (`class TableRow`) -/

/-- The markers of the table-row partitioner, in source order.  Note that
`\x7b\x7b` precedes `\x7b\x7b\x7b` here, so a triple brace lexes as a
double brace followed by a literal brace. -/
def rowMarkers : List String :=
  ["|", "``", "[[", "]]", "\x7b\x7b", "\x7d\x7d", "\x7b\x7b\x7b", "\x7d\x7d\x7d"]

/-- The `bracket_tokens` dict of `TableRow.__init__`. -/
def rowBracketTokens : List (String × String) :=
  [("``", "``"), ("[[", "]]"), ("\x7b\x7b", "\x7d\x7d"), ("\x7b\x7b\x7b", "\x7d\x7d\x7d")]

/-- The inner absorption loop for a bracket token in `TableRow.__init__`:
every token is appended to the current cell, up to and including the
closing token. -/
def absorb (endTok : String) : List String → List String × List String
  | [] => ([], [])
  | t :: ts =>
    if t = endTok then ([t], ts)
    else
      let (a, rest) := absorb endTok ts
      (t :: a, rest)

/-- Append to the last cell (`self.cells[-1].append(...)`; the cell list
is never empty when this runs, because the first token of a row is `|`). -/
def updateLast (cells : List (List String)) (f : List String → List String) :
    List (List String) :=
  match cells with
  | [] => []
  | _ => cells.dropLast ++ [f cells.getLast!]

theorem absorb_length_le (endTok : String) (ts : List String) :
    (absorb endTok ts).2.length ≤ ts.length := by
  induction ts with
  | nil => simp [absorb]
  | cons t ts ih =>
    simp only [absorb]
    split
    · simp
    · simpa using Nat.le_succ_of_le ih

/-- The cell-building loop of `TableRow.__init__`.  `fuel` only forces
termination: every iteration consumes at least one token, so
`tokens.length + 1` is enough. -/
def buildCellsGo : Nat → List (List String) → List String → List (List String)
  | 0, cells, _ => cells
  | _ + 1, cells, [] => cells
  | fuel + 1, cells, t :: ts =>
    if t = "|" then buildCellsGo fuel (cells ++ [[]]) ts
    else
      match rowBracketTokens.lookup t with
      | some endTok =>
        buildCellsGo fuel (updateLast cells (· ++ (t :: (absorb endTok ts).1)))
          (absorb endTok ts).2
      | none => buildCellsGo fuel (updateLast cells (· ++ [t])) ts

/-- The cell-building loop at its call-site fuel. -/
def buildCells (cells : List (List String)) (ts : List String) : List (List String) :=
  buildCellsGo (ts.length + 1) cells ts

/-- The trimmed row core: trailing whitespace stripped and one trailing
`|` dropped. -/
def rowCore (source : String) : String :=
  let s := pyRstrip source
  if pyEndsWith s "|" then String.mk s.data.dropLast else s

/-- A parsed table row (the guard `source.startswith("|")` holds at every
call site; rows in this development are only built for such lines). -/
structure TableRowS where
  cells : List String
deriving DecidableEq

/-- `TableRow.__init__`: lex the row core and build the raw cell strings. -/
def mkTableRow (source : String) : TableRowS :=
  let tokens := partition "~" rowMarkers (rowCore source)
  { cells := (buildCells [] tokens).map joinAll }

/-- The per-cell rendering of `TableRow.html`: header marker, code class,
alignment from padding, then the inline renderer. -/
def tableCellHtml (out : Writer) (cell : String) : Writer :=
  let strippedCell := pyStrip cell
  let (tag, content, attrs0) :=
    if pyStartsWith strippedCell "=" then
      ("th", String.mk cell.data.tail, ([] : List (String × Option String)))
    else if pyStartsWith strippedCell "`" ∧ pyEndsWith strippedCell "`" then
      ("td", cell, [("class", some "code")])
    else ("td", cell, [])
  let align : Option String :=
    match content.data with
    | [] => none
    | c :: _ =>
      let leftPadded := isPySpace c
      let rightPadded := isPySpace content.data.getLast!
      if leftPadded ∧ rightPadded then some "center"
      else if rightPadded then some "left"
      else if leftPadded then some "right"
      else none
  let (content, attrs) :=
    match align with
    | some al => (pyStrip content, attrs0 ++ [("style", some ("text-align:" ++ al))])
    | none => (content, attrs0)
  out.elementD tag attrs (textHtml content) "" ""

/-- `TableRow.html`. -/
def tableRowHtml (source : String) : String :=
  let row := mkTableRow source
  let out := (Writer.init entities).startTag "tr" [] false
  let out := row.cells.foldl tableCellHtml out
  let out := match out.endTag (some "tr") with
    | .ok o => o
    | .error _ => out
  out.html

/-! ## The document parser (`class Document`) -/

/-- The content types a `Block` can carry (Python uses the line classes
themselves as type tags; `para` is `content_type=None`). -/
inductive CType where
  | para
  | heading
  | hrule
  | listItem
  | preformatted
  | code
  | quote
  | tableRow
deriving DecidableEq

/-- One typed line stored in a block. -/
inductive LineVal where
  | para (s : String)
  | heading (h : Heading)
  | hrule
  | listItem (li : ListItem)
  | preformatted (s : String)
  | code (s : String)
  | quote (s : String)
  | tableRow (tr : TableRowS)
deriving DecidableEq

/-- `class Block`. -/
structure Block where
  content_type : CType
  metadata : Option String
  lines : List LineVal
deriving DecidableEq

/-- `Block()` -/
def Block.empty : Block :=
  ⟨.para, none, []⟩

/-- `Document.append(block)`: emit the block only when it has lines
(Python truthiness of a `Block`). -/
def appendBlock (blocks : List Block) (b : Block) : List Block :=
  if b.lines = [] then blocks else blocks ++ [b]

/-- The loop state of `Document.__init__`: finalized blocks, the derived
title with the local `title_level`, and the rolling current block. -/
structure ParseState where
  blocks : List Block
  title : Option String
  titleLevel : Nat
  block : Block
deriving DecidableEq

/-- `Document.__init__` before the loop. -/
def ParseState.init : ParseState :=
  ⟨[], none, 7, Block.empty⟩

/-- One iteration of the `Document.__init__` loop on a raw line (line
ends still attached).  Mirrors the if/elif chain of the source. -/
def docStep (st : ParseState) (rawLine : String) : ParseState :=
  if st.block.content_type = .preformatted then
    if pyStartsWith rawLine "\x7d\x7d\x7d" then
      { st with blocks := appendBlock st.blocks st.block, block := Block.empty }
    else { st with block := { st.block with lines := st.block.lines ++ [.preformatted rawLine] } }
  else if st.block.content_type = .code then
    if pyStartsWith rawLine "```" then
      { st with blocks := appendBlock st.blocks st.block, block := Block.empty }
    else { st with block := { st.block with lines := st.block.lines ++ [.code rawLine] } }
  else if st.block.content_type = .quote then
    if pyStartsWith rawLine "\"\"\"" then
      { st with blocks := appendBlock st.blocks st.block, block := Block.empty }
    else { st with block := { st.block with lines := st.block.lines ++ [.quote rawLine] } }
  else
    let line := pyRstrip rawLine
    let strippedLine := pyLstrip line
    if headingCheck line then
      let h := mkHeading line
      let blocks := appendBlock st.blocks st.block ++ [⟨.heading, none, [.heading h]⟩]
      if st.title = none ∨ st.title = some "" ∨ h.level < st.titleLevel then
        { blocks := blocks, title := some h.text, titleLevel := h.level, block := Block.empty }
      else { st with blocks := blocks, block := Block.empty }
    else if pyStartsWith line "----" then
      { st with blocks := appendBlock st.blocks st.block ++ [⟨.hrule, none, [.hrule]⟩],
                block := Block.empty }
    else if listItemCheck strippedLine (st.block.content_type = .listItem) then
      let li := mkListItem strippedLine
      let continues : Bool :=
        !st.block.lines.isEmpty && st.block.content_type = .listItem &&
          (match st.block.lines.head? with
           | some (.listItem first) => first.compatible li
           | _ => false)
      if continues then
        { st with block := { st.block with lines := st.block.lines ++ [.listItem li] } }
      else
        { st with blocks := appendBlock st.blocks st.block,
                  block := ⟨.listItem, none, [.listItem li]⟩ }
    else if pyStartsWith line "\x7b\x7b\x7b" then
      { st with blocks := appendBlock st.blocks st.block,
                block := ⟨.preformatted, some (pyStrip (pyLstripChar '\x7b' line)), []⟩ }
    else if pyStartsWith line "```" then
      { st with blocks := appendBlock st.blocks st.block,
                block := ⟨.code, some (pyStrip (pyLstripChar '`' line)), []⟩ }
    else if pyStartsWith line "\"\"\"" then
      { st with blocks := appendBlock st.blocks st.block,
                block := ⟨.quote, some (pyStrip (pyLstripChar '"' line)), []⟩ }
    else if pyStartsWith line "|" then
      if st.block.content_type ≠ .tableRow then
        { st with blocks := appendBlock st.blocks st.block,
                  block := ⟨.tableRow, none, [.tableRow (mkTableRow line)]⟩ }
      else { st with block := { st.block with lines := st.block.lines ++ [.tableRow (mkTableRow line)] } }
    else
      let st1 :=
        if st.block.content_type ≠ .para then
          { st with blocks := appendBlock st.blocks st.block, block := Block.empty }
        else st
      if line ≠ "" then
        { st1 with block := { st1.block with lines := st1.block.lines ++ [.para line] } }
      else if st1.block.lines ≠ [] then
        { st1 with blocks := st1.blocks ++ [st1.block], block := Block.empty }
      else st1

/-- `Document(source)`: run the loop over `source.splitlines(True)` and
emit the final block. -/
def docParse (source : String) : ParseState :=
  let st := (splitKeepEnds source).foldl docStep ParseState.init
  { st with blocks := appendBlock st.blocks st.block }

/-! ## Derived notions used by the verified properties -/

/-- Check a tag trace for proper nesting against a running stack: an open
pushes; a close must name the innermost open tag.  `some st` is the stack
left open; a balanced, fully closed trace yields `some []`. -/
def nestCheck : List TagEvent → List String → Option (List String)
  | [], st => some st
  | .openT t :: es, st => nestCheck es (t :: st)
  | .close t :: es, st =>
    match st with
    | [] => none
    | top :: rest => if top = t then nestCheck es rest else none

/-- The split of a stack at the first occurrence of `t`: the popped
prefix (through `t`) and the remainder. -/
def popUntil (t : String) : List String → List String × List String
  | [] => ([], [])
  | top :: rest =>
    if top = t then ([top], rest)
    else
      let (a, b) := popUntil t rest
      (top :: a, b)

/-- The writer operations the balanced-output claim ranges over. -/
inductive WOp where
  | writeHtml (s : String)
  | writeText (s : String) (postProcess : Bool)
  | writeRaw (s : String)
  | tag (t : String) (attrs : List (String × Option String))
  | startTag (t : String) (attrs : List (String × Option String)) (void : Bool)
  | endTag (t : Option String)

/-- Run one writer operation. -/
def runOp (out : Writer) : WOp → Except String Writer
  | .writeHtml s => .ok (out.writeHtml s)
  | .writeText s post => .ok (out.writeText s post)
  | .writeRaw s => .ok (out.writeRaw s)
  | .tag t attrs => .ok (out.tag t attrs)
  | .startTag t attrs void => .ok (out.startTag t attrs void)
  | .endTag t => out.endTag t

/-- Run a sequence of writer operations from a state. -/
def runOpsFrom (out : Writer) : List WOp → Except String Writer
  | [] => .ok out
  | op :: ops =>
    match runOp out op with
    | .ok o => runOpsFrom o ops
    | .error e => .error e

/-- Run a sequence of writer operations from a fresh writer. -/
def runOps (proc : String → String) (ops : List WOp) : Except String Writer :=
  runOpsFrom (Writer.init proc) ops

/-- Count of `|` tokens at the top level of a table-row token stream:
tokens inside a bracketed span (up to and including its closing token,
or the end of the stream) are skipped exactly as the cell builder skips
them.  Fueled like the cell builder. -/
def sepCountGo : Nat → List String → Nat
  | 0, _ => 0
  | _ + 1, [] => 0
  | fuel + 1, t :: ts =>
    if t = "|" then sepCountGo fuel ts + 1
    else
      match rowBracketTokens.lookup t with
      | some endTok => sepCountGo fuel (absorb endTok ts).2
      | none => sepCountGo fuel ts

/-- Top-level pipe-token count of a token stream. -/
def sepCount (ts : List String) : Nat :=
  sepCountGo (ts.length + 1) ts

/-- Count of occurrences of a character in a string. -/
def countChar (c : Char) (s : String) : Nat :=
  s.data.count c

/-- The `(level, text)` pairs of the heading lines of a block. -/
def headingsOfBlock (b : Block) : List (Nat × String) :=
  b.lines.filterMap fun
    | .heading h => some (h.level, h.text)
    | _ => none

/-- The headings of a block list, in document order. -/
def headingsOf (bs : List Block) : List (Nat × String) :=
  (bs.map headingsOfBlock).flatten

/-- The title update the source performs at each heading: overwrite when
the current title is unset or empty, or the heading level is strictly
smaller than the running minimum. -/
def titleStep (acc : Option String × Nat) (h : Nat × String) : Option String × Nat :=
  if acc.1 = none ∨ acc.1 = some "" ∨ h.1 < acc.2 then (some h.2, h.1) else acc

/-- The title derived from a heading sequence the way the code derives it. -/
def titleFold (hs : List (Nat × String)) : Option String × Nat :=
  hs.foldl titleStep (none, 7)

/-- The title as the claim words it: the text of the first heading whose
level is the smallest seen so far (strict improvement only, no special
case for empty text).  Stated from the claim for comparison with the
code's behaviour. -/
def claimTitleStep (acc : Option String × Nat) (h : Nat × String) : Option String × Nat :=
  if acc.1 = none ∨ h.1 < acc.2 then (some h.2, h.1) else acc

/-- The claim-side title of a heading sequence. -/
def claimTitle (hs : List (Nat × String)) : Option String :=
  (hs.foldl claimTitleStep (none, 7)).1

/-! ## Basic lemmas about the embedding -/

theorem mk_append (a b : List Char) : String.mk (a ++ b) = String.mk a ++ String.mk b :=
  rfl

theorem joinAll_append (xs ys : List String) :
    joinAll (xs ++ ys) = joinAll xs ++ joinAll ys := by
  simp [joinAll, ← mk_append]

theorem flatten_charStrings (l : List Char) :
    ((l.map Char.toString).map String.data).flatten = l := by
  induction l with
  | nil => rfl
  | cons c cs ih => simpa [Char.toString, String.singleton] using ih

theorem joinAll_charStrings (l : List Char) :
    joinAll (l.map Char.toString) = String.mk l := by
  show String.mk ((l.map Char.toString).map String.data).flatten = String.mk l
  rw [flatten_charStrings]

theorem data_mk (l : List Char) : (String.mk l).data = l :=
  rfl

theorem mk_data (s : String) : String.mk s.data = s := by
  cases s
  rfl

theorem hNat_ne_empty (n : Nat) : ("h" ++ toString n) ≠ "" := by
  intro h
  have : ("h" ++ toString n).data = ("" : String).data := by rw [h]
  simp [String.data_append] at this

theorem char_toString_data (c : Char) : c.toString.data = [c] :=
  rfl

theorem flatten_charStrings_comp (l : List Char) :
    (List.map (String.data ∘ Char.toString) l).flatten = l := by
  rw [← List.map_map]
  exact flatten_charStrings l

/-- `Heading.html` emits exactly an `h<level>` element containing the
escaped text and the section anchor. -/
theorem headingHtml_shape (h : Heading) :
    headingHtml h =
      "<h" ++ toString h.level ++ ">" ++ entities h.text
        ++ "<a href=\"#\">&sect;</a></h" ++ toString h.level ++ ">" := by
  have hne := hNat_ne_empty h.level
  have e1 : entities "#" = "#" := rfl
  apply String.ext
  simp [headingHtml, Writer.init, Writer.startTag, Writer.tag, Writer.writeHtml,
    Writer.flush, Writer.writeText, Writer.writeRaw, Writer.elementD, Writer.element,
    Writer.endTag, Writer.closeTo, closeStr, attrItem, sortByKey, insertByKey,
    joinSpace, Writer.html, joinAll, hne, String.data_append, flatten_charStrings,
    flatten_charStrings_comp, char_toString_data, e1]

/-! ## C10: heading levels are the leading `=` count capped at 6 -/

/-- C10.  For every heading line (a line starting with `=`), the heading
level is the number of leading `=` characters capped at 6, hence between
1 and 6, and the emitted heading element is `h<level>` — one of `h1`
through `h6` even when the line has more than six leading `=`. -/
theorem heading_level_capped (s : String) (hs : headingCheck s = true) :
    (mkHeading s).level = min (s.data.takeWhile (· = '=')).length 6 ∧
      1 ≤ (mkHeading s).level ∧ (mkHeading s).level ≤ 6 ∧
      headingHtml (mkHeading s) =
        "<h" ++ toString (mkHeading s).level ++ ">" ++ entities (mkHeading s).text
          ++ "<a href=\"#\">&sect;</a></h" ++ toString (mkHeading s).level ++ ">" := by
  have hd : ∃ cs, s.data = '=' :: cs := by
    simp only [headingCheck, pyStartsWith] at hs
    match h : s.data with
    | [] => rw [h] at hs; simp at hs
    | c :: cs =>
      rw [h] at hs
      simp only [List.take, decide_eq_true_eq] at hs
      exact ⟨cs, by rw [List.cons.injEq] at hs; rw [hs.1]⟩
  obtain ⟨cs, hcs⟩ := hd
  have hlen : 1 ≤ (s.data.takeWhile (· = '=')).length := by
    rw [hcs]
    simp [List.takeWhile]
  refine ⟨?_, ?_, ?_, headingHtml_shape _⟩
  · simp only [mkHeading]
    split <;> omega
  · simp only [mkHeading]
    split <;> omega
  · simp only [mkHeading]
    split <;> omega

/-- Witness for C10 at the line `"======== Big ="` (eight `=` signs). -/
theorem heading_level_capped_witness :
    headingCheck "======== Big =" = true ∧
      (mkHeading "======== Big =").level = min ("======== Big =".data.takeWhile (· = '=')).length 6 ∧
      1 ≤ (mkHeading "======== Big =").level ∧ (mkHeading "======== Big =").level ≤ 6 ∧
      headingHtml (mkHeading "======== Big =") =
        "<h" ++ toString (mkHeading "======== Big =").level ++ ">"
          ++ entities (mkHeading "======== Big =").text
          ++ "<a href=\"#\">&sect;</a></h" ++ toString (mkHeading "======== Big =").level ++ ">" :=
  ⟨by decide, heading_level_capped "======== Big =" (by decide)⟩

/-! ## C2: escaped markers render literally, immediately, unprocessed -/

/-- C2.  For every marker the inline lexer recognises (the escape `~` and
the twenty-three markup markers), rendering the inline span `~` + marker
yields exactly the marker's entity-escaped literal characters — and this
holds for every flush processor, so the escaped marker neither triggers
its markup meaning nor ever reaches the auto-linking processor (which
only sees deferred text). -/
theorem escaped_marker_literal (m : String) (hm : m ∈ textPartMarkers)
    (proc : String → String) :
    textHtmlWith proc ("~" ++ m) = entities m := by
  fin_cases hm <;> rfl

/-- Witness for C2 at the marker `**` with the identity processor. -/
theorem escaped_marker_literal_witness :
    ("**" ∈ textPartMarkers) ∧ textHtmlWith id ("~" ++ "**") = entities "**" :=
  ⟨by decide, escaped_marker_literal "**" (by decide) id⟩

/-! ## C9: the marker lexer is lossless -/

theorem slice_append (s : List Char) (a b c : Nat) (h1 : a ≤ b) (h2 : b ≤ c) :
    slice s a b ++ slice s b c = slice s a c := by
  unfold slice
  have hc : c - a = (b - a) + (c - b) := by omega
  rw [hc, List.take_add, List.drop_drop]
  have hb : a + (b - a) = b := by omega
  rw [hb]

theorem string_ne_empty_length {m : String} (h : m ≠ "") : 1 ≤ m.length := by
  by_contra hl
  apply h
  apply String.ext
  have : m.data.length = 0 := by
    simp only [String.length] at hl
    omega
  simpa using List.length_eq_zero.mp this

theorem partitionGo_end (escape : String) (ms : List String) (mchars : List Char)
    (s : List Char) (fuel p q : Nat) (hget : s.get? q = none) :
    partitionGo escape ms mchars s (fuel + 1) p q =
      if p < q then [slice s p q] else [] := by
  rw [partitionGo, hget]

theorem partitionGo_notMarker (escape : String) (ms : List String) (mchars : List Char)
    (s : List Char) (fuel p q : Nat) (c : Char) (hget : s.get? q = some c)
    (hc : c ∉ mchars) :
    partitionGo escape ms mchars s (fuel + 1) p q =
      partitionGo escape ms mchars s fuel p (q + 1) := by
  rw [partitionGo, hget]
  simp [hc]

theorem partitionGo_noFind (escape : String) (ms : List String) (mchars : List Char)
    (s : List Char) (fuel p q : Nat) (c : Char) (hget : s.get? q = some c)
    (hc : c ∈ mchars)
    (hfind : ms.find? (fun seq =>
      decide (slice s (escStart escape c q) (escStart escape c q + seq.length) = seq.data)) = none) :
    partitionGo escape ms mchars s (fuel + 1) p q =
      partitionGo escape ms mchars s fuel p (q + 1) := by
  rw [partitionGo, hget]
  simp only [hc, if_true, hfind]

theorem partitionGo_find (escape : String) (ms : List String) (mchars : List Char)
    (s : List Char) (fuel p q : Nat) (c : Char) (seq : String) (hget : s.get? q = some c)
    (hc : c ∈ mchars)
    (hfind : ms.find? (fun sq =>
      decide (slice s (escStart escape c q) (escStart escape c q + sq.length) = sq.data)) = some seq) :
    partitionGo escape ms mchars s (fuel + 1) p q =
      (if p < q then [slice s p q] else []) ++ [slice s q (escStart escape c q + seq.length)]
        ++ partitionGo escape ms mchars s fuel (escStart escape c q + seq.length)
            (escStart escape c q + seq.length) := by
  rw [partitionGo, hget]
  simp only [hc, if_true, hfind]

theorem escStart_ge (escape : String) (c : Char) (q : Nat) :
    q ≤ escStart escape c q := by
  unfold escStart
  split <;> omega

theorem escStart_gt_of_esc (escape : String) (c : Char) (q : Nat)
    (h : escape ≠ "" ∧ escape = String.mk [c]) : q < escStart escape c q := by
  unfold escStart
  rw [if_pos h]
  have : escape.length = 1 := by rw [h.2]; rfl
  omega

/-- The scanning loop reproduces the tail of the input it scans: every
character is emitted exactly once, in order, provided every marker is
non-empty. -/
theorem partitionGo_flatten (escape : String) (ms : List String) (mchars : List Char)
    (s : List Char) (hms : ∀ m ∈ ms, m ≠ "") :
    ∀ fuel p q, p ≤ q → q ≤ s.length → s.length - q < fuel →
      (partitionGo escape ms mchars s fuel p q).flatten = slice s p s.length := by
  intro fuel
  induction fuel with
  | zero => omega
  | succ fuel ih =>
    intro p q hpq hq hfuel
    match hget : s.get? q with
    | none =>
      have hqlen : s.length ≤ q := List.get?_eq_none.mp hget
      have hqeq : q = s.length := by omega
      rw [partitionGo_end escape ms mchars s fuel p q hget]
      by_cases hlt : p < q
      · simp only [hlt, if_true, List.flatten_cons, List.flatten_nil, List.append_nil]
        rw [hqeq]
      · have hpq' : p = q := by omega
        simp only [hlt, if_false, List.flatten_nil]
        rw [hpq', hqeq]
        simp [slice]
    | some c =>
      have hqlt : q < s.length := (List.get?_eq_some.mp hget).1
      by_cases hmem : c ∈ mchars
      · match hfind : ms.find? (fun sq =>
            decide (slice s (escStart escape c q) (escStart escape c q + sq.length) = sq.data)) with
        | some seq =>
          have hseq_mem : seq ∈ ms := List.mem_of_find?_eq_some hfind
          have hseq_ne : seq ≠ "" := hms seq hseq_mem
          have hmatch : slice s (escStart escape c q) (escStart escape c q + seq.length) = seq.data := by
            have := List.find?_some hfind
            simpa using this
          have hlen_seq : 1 ≤ seq.length := string_ne_empty_length hseq_ne
          have hseq_data_len : seq.data.length = seq.length := rfl
          have hstart_ge : q ≤ escStart escape c q := escStart_ge escape c q
          have he_le : escStart escape c q + seq.length ≤ s.length := by
            have hl := congrArg List.length hmatch
            simp only [slice, List.length_take, List.length_drop, hseq_data_len] at hl
            omega
          have he_gt : q < escStart escape c q + seq.length := by
            by_cases hesc : escape ≠ "" ∧ escape = String.mk [c]
            · have := escStart_gt_of_esc escape c q hesc
              omega
            · omega
          rw [partitionGo_find escape ms mchars s fuel p q c seq hget hmem hfind]
          rw [List.flatten_append, List.flatten_append]
          rw [ih (escStart escape c q + seq.length) (escStart escape c q + seq.length)
            (le_refl _) he_le (by omega)]
          by_cases hlt : p < q
          · simp only [hlt, if_true, List.flatten_cons, List.flatten_nil, List.append_nil,
              List.append_assoc]
            rw [slice_append s q (escStart escape c q + seq.length) s.length (by omega) he_le,
              slice_append s p q s.length (by omega) (by omega)]
          · have hpq' : p = q := by omega
            simp only [hlt, if_false, List.flatten_nil, List.nil_append,
              List.flatten_cons, List.append_nil]
            rw [hpq']
            rw [slice_append s q (escStart escape c q + seq.length) s.length (by omega) he_le]
        | none =>
          rw [partitionGo_noFind escape ms mchars s fuel p q c hget hmem hfind]
          exact ih p (q + 1) (by omega) (by omega) (by omega)
      · rw [partitionGo_notMarker escape ms mchars s fuel p q c hget hmem]
        exact ih p (q + 1) (by omega) (by omega) (by omega)

/-- C9.  For every escape, marker configuration (markers non-empty: an
empty marker makes the Python generator run forever) and input, the
concatenation of the token sequence the lexer yields is exactly the
input: the lexer is lossless. -/
theorem partition_lossless (escape : String) (markers : List String) (source : String)
    (h : ∀ m ∈ markers, m ≠ "") :
    joinAll (partition escape markers source) = source := by
  have hms : ∀ m ∈ allMarkers escape markers, m ≠ "" := by
    intro m hm
    simp only [allMarkers] at hm
    rcases List.mem_append.mp hm with hm1 | hm2
    · split at hm1
      · simp at hm1
      · rename_i hesc
        simp only [List.mem_singleton] at hm1
        subst hm1
        exact hesc
    · exact h m hm2
  unfold partition
  have hmain := partitionGo_flatten escape (allMarkers escape markers)
    (markerFirstChars (allMarkers escape markers)) source.data hms
    (source.data.length + 1) 0 0 (le_refl 0) (by omega) (by omega)
  rw [joinAll]
  rw [List.map_map]
  have hdata : (partitionGo escape (allMarkers escape markers)
      (markerFirstChars (allMarkers escape markers)) source.data
      (source.data.length + 1) 0 0).map (String.data ∘ String.mk) =
      (partitionGo escape (allMarkers escape markers)
      (markerFirstChars (allMarkers escape markers)) source.data
      (source.data.length + 1) 0 0) := by
    apply List.map_id''
    intro l
    rfl
  rw [hdata, hmain]
  simp only [slice, Nat.sub_zero, List.drop_zero]
  rw [List.take_length, mk_data]

/-- Witness for C9: escape `~`, markers `**` and `|`, a concrete source. -/
theorem partition_lossless_witness :
    (∀ m ∈ ["**", "|"], m ≠ "") ∧
      joinAll (partition "~" ["**", "|"] "a**b|c ~| d") = "a**b|c ~| d" :=
  ⟨by decide, partition_lossless "~" ["**", "|"] "a**b|c ~| d" (by decide)⟩

/-! ## Writer state lemmas -/

@[simp] theorem flush_buffer (out : Writer) : out.flush.buffer = [] := by
  unfold Writer.flush
  split
  · assumption
  · rfl

@[simp] theorem flush_stack (out : Writer) : out.flush.stack = out.stack := by
  unfold Writer.flush
  split <;> rfl

@[simp] theorem flush_events (out : Writer) : out.flush.events = out.events := by
  unfold Writer.flush
  split <;> rfl

@[simp] theorem flush_processor (out : Writer) : out.flush.processor = out.processor := by
  unfold Writer.flush
  split <;> rfl

theorem flush_of_buffer_empty (out : Writer) (h : out.buffer = []) : out.flush = out := by
  unfold Writer.flush
  rw [if_pos h]

@[simp] theorem flush_idem (out : Writer) : out.flush.flush = out.flush :=
  flush_of_buffer_empty _ (flush_buffer out)

theorem writeHtml_eq (out : Writer) (s : String) :
    out.writeHtml s =
      ⟨out.flush.tokens ++ [s], out.stack, [], out.processor, out.events⟩ := by
  unfold Writer.writeHtml
  cases hout : out.flush with
  | mk tokens stack buffer proc events =>
    have h1 := flush_stack out
    have h2 := flush_buffer out
    have h3 := flush_processor out
    have h4 := flush_events out
    rw [hout] at h1 h2 h3 h4
    simp at h1 h2 h3 h4
    subst h1 h2 h3 h4
    rfl

/-! ## C5: `end_tag` semantics -/

theorem popUntil_spec (t : String) (st : List String) (h : t ∈ st) :
    popUntil t st = (st.takeWhile (· ≠ t) ++ [t], (st.dropWhile (· ≠ t)).tail) := by
  induction st with
  | nil => cases h
  | cons top rest ih =>
    by_cases htop : top = t
    · subst htop
      simp [popUntil, List.takeWhile, List.dropWhile]
    · have hmem : t ∈ rest := by
        rcases List.mem_cons.mp h with h1 | h2
        · exact absurd h1.symm htop
        · exact h2
      have hne : (top ≠ t) = True := by simp [htop]
      simp only [popUntil, if_neg htop, ih hmem]
      simp [List.takeWhile, List.dropWhile, htop]

theorem closeTo_spec (t : String) (st : List String) (h : t ∈ st) (out : Writer) :
    Writer.closeTo t st out =
      ⟨out.flush.tokens ++ (popUntil t st).1.map closeStr, (popUntil t st).2, [],
        out.processor, out.events ++ (popUntil t st).1.map TagEvent.close⟩ := by
  induction st generalizing out with
  | nil => cases h
  | cons top rest ih =>
    rw [Writer.closeTo]
    rw [writeHtml_eq]
    have hfl : (({ out with stack := rest } : Writer).flush).tokens = out.flush.tokens := by
      unfold Writer.flush
      by_cases hb : out.buffer = [] <;> simp [hb]
    simp only [hfl]
    by_cases htop : top = t
    · subst htop
      simp [popUntil]
    · have hmem : t ∈ rest := by
        rcases List.mem_cons.mp h with h1 | h2
        · exact absurd h1.symm htop
        · exact h2
      rw [if_neg htop]
      rw [ih hmem]
      have : (⟨out.flush.tokens ++ [closeStr top], rest, [], out.processor,
          out.events ++ [TagEvent.close top]⟩ : Writer).flush =
          ⟨out.flush.tokens ++ [closeStr top], rest, [], out.processor,
          out.events ++ [TagEvent.close top]⟩ := flush_of_buffer_empty _ rfl
      simp only [this, popUntil, if_neg htop]
      simp [List.append_assoc]

/-- C5 (amended).  `end_tag` on an empty stack fails with the
`No tags to close` error no matter the argument; with a non-empty *name*
argument that is not on the stack it fails with the unmatched-tag error;
with a non-empty name on the stack it emits closing tags from the top of
the stack down to and including the first occurrence of the name (the
popped prefix is exactly `takeWhile (≠ name) ++ [name]`) and removes them
from the stack; with no argument it closes exactly the innermost open
tag.  Because Python tests the argument for truthiness, an *empty-string*
name behaves like an omitted argument rather than raising the
unmatched-tag error (that quirk is what the original claim misses). -/
theorem end_tag_spec (out : Writer) :
    (out.stack = [] → ∀ targ, out.endTag targ = .error "No tags to close") ∧
    (∀ name, out.stack ≠ [] → name ≠ "" → name ∉ out.stack →
      out.endTag (some name) =
        .error ("End tag </" ++ name ++ "> should have corresponding start tag <" ++ name ++ ">")) ∧
    (∀ name, name ≠ "" → name ∈ out.stack →
      out.endTag (some name) =
        .ok ⟨out.flush.tokens ++ (popUntil name out.stack).1.map closeStr,
          (popUntil name out.stack).2, [], out.processor,
          out.events ++ (popUntil name out.stack).1.map TagEvent.close⟩ ∧
      (popUntil name out.stack).1 = out.stack.takeWhile (· ≠ name) ++ [name] ∧
      (popUntil name out.stack).2 = (out.stack.dropWhile (· ≠ name)).tail) ∧
    (∀ top rest, out.stack = top :: rest →
      out.endTag none =
        .ok ⟨out.flush.tokens ++ [closeStr top], rest, [], out.processor,
          out.events ++ [TagEvent.close top]⟩) ∧
    (out.stack ≠ [] → out.endTag (some "") = out.endTag none) := by
  refine ⟨?_, ?_, ?_, ?_, ?_⟩
  · intro hst targ
    unfold Writer.endTag
    rw [hst]
  · intro name hst hne hnm
    unfold Writer.endTag
    match h : out.stack with
    | [] => exact absurd h hst
    | top :: rest =>
      rw [h] at hnm
      simp only [if_neg hne]
      rw [if_neg]
      simpa using hnm
  · intro name hne hmem
    refine ⟨?_, ?_, ?_⟩
    · unfold Writer.endTag
      match h : out.stack with
      | [] => rw [h] at hmem; cases hmem
      | top :: rest =>
        rw [h] at hmem
        simp only [if_neg hne, if_pos hmem]
        rw [← h] at hmem ⊢
        rw [closeTo_spec name out.stack hmem out]
    · rw [(popUntil_spec name out.stack hmem)]
    · rw [(popUntil_spec name out.stack hmem)]
  · intro top rest hst
    unfold Writer.endTag
    rw [hst]
    simp only
    rw [if_pos (List.mem_cons_self top rest)]
    rw [closeTo_spec top (top :: rest) (List.mem_cons_self top rest) out]
    simp [popUntil]
  · intro hst
    unfold Writer.endTag
    match h : out.stack with
    | [] => exact absurd h hst
    | top :: rest => simp

/-- Witness for C5 (amended): a writer with open tags `em` (inner) and
`strong` (outer); closing `strong` by name closes both, innermost first. -/
theorem end_tag_spec_witness :
    ("strong" ≠ "" ∧ "strong" ∈ (["em", "strong"] : List String)) ∧
      Writer.endTag ⟨[], ["em", "strong"], [], id, []⟩ (some "strong") =
        .ok ⟨["</em>", "</strong>"], [], [], id,
          [TagEvent.close "em", TagEvent.close "strong"]⟩ := by
  refine ⟨⟨by decide, by decide⟩, ?_⟩
  have h := ((end_tag_spec ⟨[], ["em", "strong"], [], id, []⟩).2.2.1 "strong"
    (by decide) (by decide)).1
  rw [h]
  rfl

/-- Counterexample to C5 as stated: with stack `["p"]`, `end_tag("")` is
given a name that is nowhere on the stack, yet it does not fail — Python
treats the falsy empty string like an omitted argument and closes the
innermost tag. -/
theorem end_tag_empty_name_cex :
    ("" ∉ (["p"] : List String)) ∧
      Writer.endTag ⟨[], ["p"], [], id, []⟩ (some "") =
        .ok ⟨["</p>"], [], [], id, [TagEvent.close "p"]⟩ :=
  ⟨by decide, rfl⟩

/-! ## C1: `close()` flushes, closes innermost-first, balances -/

@[simp] theorem writeText_stack (out : Writer) (s : String) (post : Bool) :
    (out.writeText s post).stack = out.stack := by
  unfold Writer.writeText
  split <;> simp

@[simp] theorem writeText_events (out : Writer) (s : String) (post : Bool) :
    (out.writeText s post).events = out.events := by
  unfold Writer.writeText
  split <;> simp

@[simp] theorem writeRaw_stack (out : Writer) (s : String) :
    (out.writeRaw s).stack = out.stack := by
  unfold Writer.writeRaw
  simp

@[simp] theorem writeRaw_events (out : Writer) (s : String) :
    (out.writeRaw s).events = out.events := by
  unfold Writer.writeRaw
  simp

@[simp] theorem writeHtml_stack (out : Writer) (s : String) :
    (out.writeHtml s).stack = out.stack := by
  rw [writeHtml_eq]

@[simp] theorem writeHtml_events (out : Writer) (s : String) :
    (out.writeHtml s).events = out.events := by
  rw [writeHtml_eq]

@[simp] theorem tag_stack (out : Writer) (t : String) (attrs : List (String × Option String)) :
    (out.tag t attrs).stack = out.stack := by
  unfold Writer.tag
  split <;> simp

@[simp] theorem tag_events (out : Writer) (t : String) (attrs : List (String × Option String)) :
    (out.tag t attrs).events = out.events := by
  unfold Writer.tag
  split <;> simp

theorem nestCheck_append (es fs : List TagEvent) (st : List String) :
    nestCheck (es ++ fs) st = (nestCheck es st).bind (fun st' => nestCheck fs st') := by
  induction es generalizing st with
  | nil => rfl
  | cons e es ih =>
    cases e with
    | openT t => simpa [nestCheck] using ih (t :: st)
    | close t =>
      cases st with
      | nil => rfl
      | cons top rest =>
        by_cases h : top = t
        · simpa [nestCheck, h] using ih rest
        · simp [nestCheck, h]

theorem popUntil_append (t : String) (st : List String) (h : t ∈ st) :
    (popUntil t st).1 ++ (popUntil t st).2 = st := by
  induction st with
  | nil => cases h
  | cons top rest ih =>
    by_cases htop : top = t
    · subst htop
      simp [popUntil]
    · have hmem : t ∈ rest := by
        rcases List.mem_cons.mp h with h1 | h2
        · exact absurd h1.symm htop
        · exact h2
      simp only [popUntil, if_neg htop]
      simpa using ih hmem

theorem nestCheck_closes (popped rest : List String) :
    nestCheck (popped.map TagEvent.close) (popped ++ rest) = some rest := by
  induction popped with
  | nil => rfl
  | cons top more ih => simpa [nestCheck] using ih

/-- The writer invariant: replaying the ghost tag trace against an empty
stack leaves open exactly the writer's current stack. -/
def WInv (out : Writer) : Prop :=
  nestCheck out.events [] = some out.stack

theorem winv_init (proc : String → String) : WInv (Writer.init proc) :=
  rfl

theorem winv_runOp (out out' : Writer) (op : WOp) (hinv : WInv out)
    (h : runOp out op = .ok out') : WInv out' := by
  cases op with
  | writeHtml s =>
    cases h
    unfold WInv
    simpa using hinv
  | writeText s post =>
    cases h
    unfold WInv
    simpa using hinv
  | writeRaw s =>
    cases h
    unfold WInv
    simpa using hinv
  | tag t attrs =>
    cases h
    unfold WInv
    simpa using hinv
  | startTag t attrs void =>
    cases h
    unfold WInv Writer.startTag
    by_cases hv : void
    · simpa [hv] using hinv
    · simp only [hv, if_false, Bool.false_eq_true]
      rw [nestCheck_append]
      simp only [tag_events, tag_stack]
      rw [hinv]
      simp [nestCheck]
  | endTag targ =>
    simp only [runOp] at h
    unfold Writer.endTag at h
    match hst : out.stack with
    | [] => rw [hst] at h; cases h
    | top :: rest =>
      rw [hst] at h
      simp only at h
      set t := (match targ with
        | none => top
        | some s => if s = "" then top else s) with ht
      by_cases hmem : t ∈ out.stack
      · rw [← hst, if_pos hmem] at h
        cases h
        have hspec := closeTo_spec t out.stack hmem out
        unfold WInv
        rw [hspec]
        simp only
        rw [nestCheck_append, hinv]
        have hsplit := popUntil_append t out.stack hmem
        calc ((some out.stack).bind
              fun st' => nestCheck ((popUntil t out.stack).1.map TagEvent.close) st')
            = nestCheck ((popUntil t out.stack).1.map TagEvent.close) out.stack := rfl
          _ = nestCheck ((popUntil t out.stack).1.map TagEvent.close)
              ((popUntil t out.stack).1 ++ (popUntil t out.stack).2) := by rw [hsplit]
          _ = some (popUntil t out.stack).2 := nestCheck_closes _ _
      · rw [← hst, if_neg hmem] at h
        cases h

theorem winv_runOpsFrom (out : Writer) (ops : List WOp) (out' : Writer)
    (hinv : WInv out) (h : runOpsFrom out ops = .ok out') : WInv out' := by
  induction ops generalizing out with
  | nil =>
    cases h
    exact hinv
  | cons op ops ih =>
    simp only [runOpsFrom] at h
    match hop : runOp out op with
    | .ok o =>
      rw [hop] at h
      exact ih o (winv_runOp out o op hinv hop) h
    | .error e => rw [hop] at h; cases h

theorem closeAllLoop_spec (st : List String) (out : Writer) (hb : out.buffer = [])
    (hst : out.stack = st) :
    Writer.closeAllLoop st out =
      ⟨out.tokens ++ st.map closeStr, [], [], out.processor,
        out.events ++ st.map TagEvent.close⟩ := by
  induction st generalizing out with
  | nil =>
    cases out
    simp_all [Writer.closeAllLoop]
  | cons top rest ih =>
    rw [Writer.closeAllLoop]
    rw [writeHtml_eq]
    have hfl : (({ out with stack := rest } : Writer).flush) = { out with stack := rest } :=
      flush_of_buffer_empty _ hb
    rw [hfl]
    simp only
    rw [ih ⟨out.tokens ++ [closeStr top], rest, [], out.processor,
      out.events ++ [TagEvent.close top]⟩ rfl rfl]
    simp [List.append_assoc]

/-- What `close()` does to any writer state: flush first, then exactly
one closing tag per stack entry, innermost first, leaving the stack
empty. -/
theorem closeOut_spec (out : Writer) :
    out.closeOut =
      ⟨out.flush.tokens ++ out.stack.map closeStr, [], [], out.processor,
        out.events ++ out.stack.map TagEvent.close⟩ := by
  unfold Writer.closeOut
  simp only
  rw [closeAllLoop_spec out.flush.stack out.flush (flush_buffer out) rfl]
  simp

/-- C1.  For every sequence of writer operations executed from a fresh
writer (with any flush processor), `close()` first flushes the deferred
buffer, then emits a closing tag for every entry remaining on the
open-tag stack, innermost first, and leaves the stack empty; moreover the
whole structural tag trace, including those final closes, is balanced and
properly nested (replaying it closes every opened tag in LIFO order). -/
theorem close_balances (proc : String → String) (ops : List WOp) (out : Writer)
    (h : runOps proc ops = .ok out) :
    out.closeOut.stack = [] ∧
    out.closeOut.tokens = out.flush.tokens ++ out.stack.map closeStr ∧
    nestCheck out.closeOut.events [] = some [] := by
  have hinv : WInv out := winv_runOpsFrom (Writer.init proc) ops out (winv_init proc) h
  refine ⟨by rw [closeOut_spec], by rw [closeOut_spec], ?_⟩
  rw [closeOut_spec]
  simp only
  rw [nestCheck_append, hinv]
  simpa using nestCheck_closes out.stack []

/-- Witness for C1: open a `p`, defer some text, then close. -/
theorem close_balances_witness :
    (runOps id [WOp.startTag "p" [] false, WOp.writeText "hi" true] =
      .ok ⟨["<p>"], ["p"], ['h', 'i'], id, [TagEvent.openT "p"]⟩) ∧
    ((⟨["<p>"], ["p"], ['h', 'i'], id, [TagEvent.openT "p"]⟩ : Writer).closeOut.stack = [] ∧
      (⟨["<p>"], ["p"], ['h', 'i'], id, [TagEvent.openT "p"]⟩ : Writer).closeOut.tokens =
        (⟨["<p>"], ["p"], ['h', 'i'], id, [TagEvent.openT "p"]⟩ : Writer).flush.tokens
          ++ (["p"] : List String).map closeStr ∧
      nestCheck (⟨["<p>"], ["p"], ['h', 'i'], id, [TagEvent.openT "p"]⟩ : Writer).closeOut.events []
        = some []) :=
  ⟨rfl, close_balances id [WOp.startTag "p" [] false, WOp.writeText "hi" true] _ rfl⟩

/-! ## C3: cell count against top-level pipe tokens -/

@[simp] theorem updateLast_length (cells : List (List String)) (f : List String → List String) :
    (updateLast cells f).length = cells.length := by
  cases cells with
  | nil => rfl
  | cons x xs =>
    simp only [updateLast, List.length_append, List.length_dropLast, List.length_cons,
      List.length_nil]
    omega

theorem buildCellsGo_length (fuel : Nat) :
    ∀ ts cells, ts.length < fuel →
      (buildCellsGo fuel cells ts).length = cells.length + sepCountGo fuel ts := by
  induction fuel with
  | zero => omega
  | succ fuel ih =>
    intro ts cells hlen
    match ts with
    | [] => simp [buildCellsGo, sepCountGo]
    | t :: ts =>
      rw [buildCellsGo, sepCountGo]
      simp only [List.length_cons] at hlen
      by_cases hpipe : t = "|"
      · simp only [if_pos hpipe]
        rw [ih ts (cells ++ [[]]) (by omega)]
        simp only [List.length_append, List.length_cons, List.length_nil]
        omega
      · simp only [if_neg hpipe]
        match rowBracketTokens.lookup t with
        | some endTok =>
          have habs := absorb_length_le endTok ts
          rw [ih (absorb endTok ts).2 _ (by omega)]
          simp [updateLast_length]
        | none =>
          rw [ih ts _ (by omega)]
          simp [updateLast_length]

theorem buildCells_length (cells : List (List String)) (ts : List String) :
    (buildCells cells ts).length = cells.length + sepCount ts :=
  buildCellsGo_length (ts.length + 1) ts cells (by omega)

/-- C3 (amended).  For every table-row line, the number of cells equals
the number of top-level `|` tokens in the lexed row core (the line with
trailing whitespace stripped and one trailing `|` dropped) — top-level
meaning: not escape-prefixed (an escaped pipe lexes as the token `~|`)
and not inside a bracketed span, whose tokens up to the matching closing
token (or the end of the row, if unterminated) are skipped.  So a core
whose lexing has the leading delimiter token plus N further top-level
pipe tokens yields exactly N + 1 cells, however many `|` characters
occur inside bracketed spans.  (As literally stated — N counting every
unescaped unbracketed pipe character of the whole line — the claim is off
by the delimiters themselves; see the counterexample.) -/
theorem table_row_cell_count (source : String) (_h : pyStartsWith source "|" = true) :
    (mkTableRow source).cells.length =
      sepCount (partition "~" rowMarkers (rowCore source)) := by
  unfold mkTableRow
  simp only [List.length_map]
  simpa using buildCells_length [] (partition "~" rowMarkers (rowCore source))

/-- Witness for C3 (amended): the row `"|a|[[b|c]]|d|"` has three
top-level pipe tokens in its core (`|a|[[b|c]]|d`) — the pipe inside the
bracketed link span does not count — and exactly three cells. -/
theorem table_row_cell_count_witness :
    (pyStartsWith "|a|[[b|c]]|d|" "|" = true) ∧
      (mkTableRow "|a|[[b|c]]|d|").cells.length =
        sepCount (partition "~" rowMarkers (rowCore "|a|[[b|c]]|d|")) ∧
      (mkTableRow "|a|[[b|c]]|d|").cells.length = 3 :=
  ⟨by decide, table_row_cell_count "|a|[[b|c]]|d|" (by decide), by decide⟩

/-- Counterexample to C3 as stated: the row `"|foo"` contains exactly one
unescaped `|` character and no bracket or escape characters at all, yet
it produces one cell, not two.  The claimed `N + 1` only holds when the
leading delimiter (and a trailing one, when present) is not counted. -/
theorem table_row_cell_count_cex :
    countChar '|' "|foo" = 1 ∧
      ("|foo".data.all (fun c => c ∉ (['~', '[', ']', '\x7b', '\x7d', '`'] : List Char))) ∧
      (mkTableRow "|foo").cells.length = 1 ∧
      (mkTableRow "|foo").cells.length ≠ countChar '|' "|foo" + 1 := by
  refine ⟨by decide, by decide, by decide, by decide⟩

/-! ## C4: unterminated-bracket absorption in table rows -/

/-- C4.  The unterminated row `|[[foo|{{bar.jpg|baz|` renders to exactly
the same HTML as the terminated row `|[[foo|{{bar.jpg|baz}}]]|`: the
unterminated brackets absorb all remaining tokens and are no error.  But
that HTML is `<tr><td><a href="foo"><img alt="baz" src="bar.jpg"></a></td></tr>`:
`HTML.tag` sorts attributes by key, so `alt` is emitted before `src`,
contradicting the order the claim (and the repository's own test corpus,
`test_cell_with_unclosed_brackets`) demands. -/
theorem table_row_absorption_eval :
    tableRowHtml "|[[foo|\x7b\x7bbar.jpg|baz|" = tableRowHtml "|[[foo|\x7b\x7bbar.jpg|baz\x7d\x7d]]|" ∧
    tableRowHtml "|[[foo|\x7b\x7bbar.jpg|baz|" =
      "<tr><td><a href=\"foo\"><img alt=\"baz\" src=\"bar.jpg\"></a></td></tr>" ∧
    tableRowHtml "|[[foo|\x7b\x7bbar.jpg|baz|" ≠
      "<tr><td><a href=\"foo\"><img src=\"bar.jpg\" alt=\"baz\"></a></td></tr>" :=
  ⟨by decide, by decide, by decide⟩

/-! ## C7: what a blank line does to the current block -/

theorem listItemCheck_empty (b : Bool) : listItemCheck "" b = false := by
  unfold listItemCheck
  split <;> rfl

/-- C7 (amended).  On a blank input line (blank after stripping trailing
whitespace) outside any open fenced block, the classifier closes the
current block — *appending* it to the finalized block list when it is
non-empty, not discarding it — starts a fresh empty block, and leaves the
title state untouched.  The content accumulated in the current block
*does* appear in the finalized list, contrary to the claim's
"discarded". -/
theorem blank_line_step (st : ParseState) (rawLine : String)
    (hpre : st.block.content_type ≠ .preformatted)
    (hcode : st.block.content_type ≠ .code)
    (hquote : st.block.content_type ≠ .quote)
    (hblank : pyRstrip rawLine = "") :
    (docStep st rawLine).blocks = appendBlock st.blocks st.block ∧
    (docStep st rawLine).block.lines = [] ∧
    (docStep st rawLine).title = st.title ∧
    (docStep st rawLine).titleLevel = st.titleLevel := by
  have hhead : headingCheck "" = false := by decide
  have hhr : pyStartsWith "" "----" = false := by decide
  have hlstrip : pyLstrip "" = "" := by decide
  have hfpre : pyStartsWith "" "\x7b\x7b\x7b" = false := by decide
  have hfcode : pyStartsWith "" "```" = false := by decide
  have hfquote : pyStartsWith "" "\"\"\"" = false := by decide
  have hfrow : pyStartsWith "" "|" = false := by decide
  unfold docStep
  rw [if_neg hpre, if_neg hcode, if_neg hquote]
  simp only [hblank, hlstrip, hhead, hhr, listItemCheck_empty, hfpre, hfcode, hfquote,
    hfrow, Bool.false_eq_true, if_false]
  by_cases hpara : st.block.content_type = .para
  · simp only [hpara, ne_eq, not_true_eq_false, if_false, ite_not]
    by_cases hlines : st.block.lines = []
    · simp [hlines, appendBlock]
    · simp [hlines, appendBlock, Block.empty]
  · simp only [ne_eq, hpara, not_false_iff, if_true]
    simp [appendBlock, Block.empty]

/-- Witness for C7 (amended): a paragraph block holding `x` hit by the
blank line `"\n"`. -/
theorem blank_line_step_witness :
    ((⟨[], none, 7, ⟨.para, none, [.para "x"]⟩⟩ : ParseState).block.content_type ≠ .preformatted ∧
      pyRstrip "\n" = "") ∧
    ((docStep ⟨[], none, 7, ⟨.para, none, [.para "x"]⟩⟩ "\n").blocks =
        appendBlock [] ⟨.para, none, [.para "x"]⟩ ∧
      (docStep ⟨[], none, 7, ⟨.para, none, [.para "x"]⟩⟩ "\n").block.lines = [] ∧
      (docStep ⟨[], none, 7, ⟨.para, none, [.para "x"]⟩⟩ "\n").title = none ∧
      (docStep ⟨[], none, 7, ⟨.para, none, [.para "x"]⟩⟩ "\n").titleLevel = 7) :=
  ⟨⟨by decide, by decide⟩,
    blank_line_step ⟨[], none, 7, ⟨.para, none, [.para "x"]⟩⟩ "\n"
      (by decide) (by decide) (by decide) (by decide)⟩

/-- Counterexample to C7 as stated: in `"foo\n\nbar"` the blank line ends
the paragraph holding `foo`, but that paragraph is *emitted* into the
finalized block list, not discarded — the parse yields two paragraph
blocks, the first still containing `foo`. -/
theorem blank_line_discard_cex :
    (docParse "foo\n\nbar").blocks.map Block.lines =
      [[.para "foo"], [.para "bar"]] := by
  decide

/-! ## C6: the derived document title -/

theorem headingsOf_append_one (bs : List Block) (b : Block) :
    headingsOf (bs ++ [b]) = headingsOf bs ++ headingsOfBlock b := by
  unfold headingsOf
  rw [List.map_append, List.flatten_append, List.map_cons, List.map_nil,
    List.flatten_cons, List.flatten_nil, List.append_nil]

theorem headingsOf_appendBlock (bs : List Block) (b : Block)
    (h : headingsOfBlock b = []) :
    headingsOf (appendBlock bs b) = headingsOf bs := by
  unfold appendBlock
  split
  · rfl
  · rw [headingsOf_append_one, h, List.append_nil]

theorem titleFold_append_one (hs : List (Nat × String)) (x : Nat × String) :
    titleFold (hs ++ [x]) = titleStep (titleFold hs) x := by
  simp [titleFold]

theorem headingsOfBlock_snoc (b : Block) (ct : CType) (md : Option String) (v : LineVal)
    (hv : (match v with | LineVal.heading _ => false | _ => true) = true)
    (hb : headingsOfBlock b = []) :
    headingsOfBlock ⟨ct, md, b.lines ++ [v]⟩ = [] := by
  unfold headingsOfBlock at hb ⊢
  simp only [List.filterMap_append, hb, List.nil_append]
  cases v <;> simp at hv ⊢

/-- The parse-loop invariant for the title: the running `(title,
title_level)` pair is the title fold of the headings emitted so far, and
the rolling block holds no heading lines. -/
def DocInv (st : ParseState) : Prop :=
  (st.title, st.titleLevel) = titleFold (headingsOf st.blocks) ∧
    headingsOfBlock st.block = []

theorem docInv_init : DocInv ParseState.init :=
  ⟨rfl, rfl⟩

theorem docInv_step (st : ParseState) (line : String) (hinv : DocInv st) :
    DocInv (docStep st line) := by
  obtain ⟨htitle, hblock⟩ := hinv
  have happ : ∀ bs, headingsOf (appendBlock bs st.block) = headingsOf bs :=
    fun bs => headingsOf_appendBlock bs st.block hblock
  unfold docStep
  by_cases h1 : st.block.content_type = CType.preformatted
  · rw [if_pos h1]
    by_cases h1e : pyStartsWith line "\x7d\x7d\x7d" = true
    · rw [if_pos h1e]
      exact ⟨by rw [happ]; exact htitle, rfl⟩
    · rw [if_neg h1e]
      exact ⟨htitle, headingsOfBlock_snoc st.block _ _ _ rfl hblock⟩
  rw [if_neg h1]
  by_cases h2 : st.block.content_type = CType.code
  · rw [if_pos h2]
    by_cases h2e : pyStartsWith line "```" = true
    · rw [if_pos h2e]
      exact ⟨by rw [happ]; exact htitle, rfl⟩
    · rw [if_neg h2e]
      exact ⟨htitle, headingsOfBlock_snoc st.block _ _ _ rfl hblock⟩
  rw [if_neg h2]
  by_cases h3 : st.block.content_type = CType.quote
  · rw [if_pos h3]
    by_cases h3e : pyStartsWith line "\"\"\"" = true
    · rw [if_pos h3e]
      exact ⟨by rw [happ]; exact htitle, rfl⟩
    · rw [if_neg h3e]
      exact ⟨htitle, headingsOfBlock_snoc st.block _ _ _ rfl hblock⟩
  rw [if_neg h3]
  simp only []
  by_cases h4 : headingCheck (pyRstrip line) = true
  · rw [if_pos h4]
    have hkey : titleFold (headingsOf (appendBlock st.blocks st.block ++
        [⟨CType.heading, none, [LineVal.heading (mkHeading (pyRstrip line))]⟩])) =
        titleStep (st.title, st.titleLevel)
          ((mkHeading (pyRstrip line)).level, (mkHeading (pyRstrip line)).text) := by
      rw [headingsOf_append_one, happ]
      have hone : headingsOfBlock
          ⟨CType.heading, none, [LineVal.heading (mkHeading (pyRstrip line))]⟩ =
          [((mkHeading (pyRstrip line)).level, (mkHeading (pyRstrip line)).text)] := rfl
      rw [hone, titleFold_append_one, ← htitle]
    by_cases h4c : st.title = none ∨ st.title = some "" ∨
        (mkHeading (pyRstrip line)).level < st.titleLevel
    · rw [if_pos h4c]
      refine ⟨?_, rfl⟩
      simp only
      rw [hkey, titleStep, if_pos h4c]
    · rw [if_neg h4c]
      refine ⟨?_, rfl⟩
      simp only
      rw [hkey, titleStep, if_neg h4c]
  rw [if_neg h4]
  by_cases h5 : pyStartsWith (pyRstrip line) "----" = true
  · rw [if_pos h5]
    refine ⟨?_, rfl⟩
    simp only
    rw [headingsOf_append_one, happ]
    have hone : headingsOfBlock ⟨CType.hrule, none, [LineVal.hrule]⟩ = [] := rfl
    rw [hone, List.append_nil]
    exact htitle
  rw [if_neg h5]
  by_cases h6 : listItemCheck (pyLstrip (pyRstrip line))
      (st.block.content_type = CType.listItem) = true
  · rw [if_pos h6]
    by_cases h6c : (!st.block.lines.isEmpty &&
        (st.block.content_type = CType.listItem) &&
        (match st.block.lines.head? with
         | some (LineVal.listItem first) =>
             first.compatible (mkListItem (pyLstrip (pyRstrip line)))
         | _ => false)) = true
    · rw [if_pos h6c]
      exact ⟨htitle, headingsOfBlock_snoc st.block _ _ _ rfl hblock⟩
    · rw [if_neg h6c]
      exact ⟨by rw [happ]; exact htitle, rfl⟩
  rw [if_neg h6]
  by_cases h7 : pyStartsWith (pyRstrip line) "\x7b\x7b\x7b" = true
  · rw [if_pos h7]
    exact ⟨by rw [happ]; exact htitle, rfl⟩
  rw [if_neg h7]
  by_cases h8 : pyStartsWith (pyRstrip line) "```" = true
  · rw [if_pos h8]
    exact ⟨by rw [happ]; exact htitle, rfl⟩
  rw [if_neg h8]
  by_cases h9 : pyStartsWith (pyRstrip line) "\"\"\"" = true
  · rw [if_pos h9]
    exact ⟨by rw [happ]; exact htitle, rfl⟩
  rw [if_neg h9]
  by_cases h10 : pyStartsWith (pyRstrip line) "|" = true
  · rw [if_pos h10]
    by_cases h10c : st.block.content_type ≠ CType.tableRow
    · rw [if_pos h10c]
      exact ⟨by rw [happ]; exact htitle, rfl⟩
    · rw [if_neg h10c]
      exact ⟨htitle, headingsOfBlock_snoc st.block _ _ _ rfl hblock⟩
  rw [if_neg h10]
  by_cases h11 : st.block.content_type ≠ CType.para
  · rw [if_pos h11]
    simp only []
    by_cases h12 : pyRstrip line ≠ ""
    · rw [if_pos h12]
      exact ⟨by rw [happ]; exact htitle,
        headingsOfBlock_snoc Block.empty _ _ _ rfl rfl⟩
    · rw [if_neg h12]
      by_cases h13 : Block.empty.lines ≠ []
      · exact absurd rfl h13
      · rw [if_neg h13]
        exact ⟨by rw [happ]; exact htitle, rfl⟩
  · rw [if_neg h11]
    by_cases h12 : pyRstrip line ≠ ""
    · rw [if_pos h12]
      exact ⟨htitle, headingsOfBlock_snoc st.block _ _ _ rfl hblock⟩
    · rw [if_neg h12]
      by_cases h13 : st.block.lines ≠ []
      · rw [if_pos h13]
        refine ⟨?_, rfl⟩
        simp only
        rw [headingsOf_append_one, hblock, List.append_nil]
        exact htitle
      · rw [if_neg h13]
        exact ⟨htitle, hblock⟩

theorem docInv_foldl (lines : List String) (st : ParseState) (hinv : DocInv st) :
    DocInv (lines.foldl docStep st) := by
  induction lines generalizing st with
  | nil => exact hinv
  | cons l ls ih => exact ih (docStep st l) (docInv_step st l hinv)

/-- C6 (amended).  For every document, the derived title equals the fold
of the code's title update over the headings of the final block list, in
document order: a heading takes the title when the current title is
*unset or empty*, or its level is strictly smaller than the smallest
heading level seen so far; and the title is absent when the document has
no heading.  (The claim's version — strictly-smaller level only — differs
exactly when an empty-texted heading holds the title: Python's falsy test
lets the next heading overwrite it regardless of level.) -/
theorem doc_title (source : String) :
    (docParse source).title = (titleFold (headingsOf (docParse source).blocks)).1 ∧
      (headingsOf (docParse source).blocks = [] → (docParse source).title = none) := by
  obtain ⟨htitle, hblock⟩ :=
    docInv_foldl (splitKeepEnds source) ParseState.init docInv_init
  unfold docParse
  simp only
  rw [headingsOf_appendBlock _ _ hblock]
  constructor
  · exact congrArg Prod.fst htitle
  · intro hempty
    rw [hempty] at htitle
    have h1 := congrArg Prod.fst htitle
    simpa [titleFold, titleStep] using h1

/-- Witness for C6 (amended) on a document whose headings are
`(1, "A"), (3, "B"), (2, "C")` — the fold keeps `A` — and on a document
with no heading at all. -/
theorem doc_title_witness :
    (docParse "= A\n=== B\n== C").title =
        (titleFold (headingsOf (docParse "= A\n=== B\n== C").blocks)).1 ∧
      (docParse "= A\n=== B\n== C").title = some "A" ∧
      (headingsOf (docParse "plain text").blocks = [] ∧
        (docParse "plain text").title = none) :=
  ⟨(doc_title "= A\n=== B\n== C").1, by decide,
    by decide, (doc_title "plain text").2 (by decide)⟩

/-- Counterexample to C6 as stated: in `"=\n== foo"` the first heading
(level 1, empty text) is the first heading of smallest level seen so far,
so the claimed title is its text `""`; but the code's falsy check lets
the level-2 heading overwrite an empty title, yielding `"foo"`. -/
theorem doc_title_cex :
    (docParse "=\n== foo").title = some "foo" ∧
      claimTitle (headingsOf (docParse "=\n== foo").blocks) = some "" ∧
      (some "foo" : Option String) ≠ some "" :=
  ⟨by decide, by decide, by decide⟩


/-! ## C8: rendering marker-free plain text -/

/-- The characters that can begin a token of the inline lexer. -/
def textMarkerChars : List Char :=
  markerFirstChars textPartMarkers

theorem joinAll_singleton (s : String) : joinAll [s] = s := by
  rw [show joinAll [s] = String.mk (s.data ++ []) from rfl, List.append_nil, mk_data]

theorem partitionGo_noMarkers (escape : String) (ms : List String) (s : List Char)
    (h : ∀ c ∈ s, c ∉ markerFirstChars ms) :
    ∀ fuel p q, p ≤ q → q ≤ s.length → s.length - q < fuel →
      partitionGo escape ms (markerFirstChars ms) s fuel p q =
        if p < s.length then [slice s p s.length] else [] := by
  intro fuel
  induction fuel with
  | zero => omega
  | succ fuel ih =>
    intro p q hpq hq hfuel
    match hget : s.get? q with
    | none =>
      have hqlen : s.length ≤ q := List.get?_eq_none.mp hget
      have hqeq : q = s.length := by omega
      rw [partitionGo_end escape ms (markerFirstChars ms) s fuel p q hget, hqeq]
    | some c =>
      have hqlt : q < s.length := (List.get?_eq_some.mp hget).1
      have hcm : c ∈ s := List.get?_mem hget
      rw [partitionGo_notMarker escape ms (markerFirstChars ms) s fuel p q c hget (h c hcm)]
      exact ih p (q + 1) (by omega) (by omega) (by omega)

/-- A marker-free non-empty source lexes to itself as a single literal
token. -/
theorem textTokens_noMarkers (source : String) (hne : source.data ≠ [])
    (h : ∀ c ∈ source.data, c ∉ textMarkerChars) :
    textTokens source = [source] := by
  show (partitionGo "~" (allMarkers "~" textMarkers)
      (markerFirstChars (allMarkers "~" textMarkers)) source.data
      (source.data.length + 1) 0 0).map String.mk = [source]
  rw [partitionGo_noMarkers "~" (allMarkers "~" textMarkers) source.data h
    (source.data.length + 1) 0 0 (le_refl 0) (by omega) (by omega)]
  have hlen : 0 < source.data.length := List.length_pos.mpr hne
  rw [if_pos hlen]
  simp only [List.map_cons, List.map_nil]
  rw [show slice source.data 0 source.data.length = source.data by
    simp [slice, List.take_length]]

theorem ne_of_marker_head (source k : String)
    (h : ∀ c ∈ source.data, c ∉ textMarkerChars)
    (hk : ∃ ch ∈ k.data, ch ∈ textMarkerChars) : source ≠ k := by
  intro he
  subst he
  obtain ⟨ch, hmem, hmc⟩ := hk
  exact h ch hmem hmc

/-- One step of the inline renderer on a plain literal token: the token
is deferred into the buffer. -/
theorem textHtmlGo_literal (text : String) (c : Char) (cs : List Char)
    (hd : text.data = c :: cs) (hc : c ≠ '~')
    (hsimple : simpleTokens.lookup text = none)
    (htoggle : toggleTokens.lookup text = none)
    (hbracket : bracketTokens.lookup text = none)
    (hlink : text ≠ "[[") (hclose : text ≠ "]]") (out : Writer) :
    textHtmlGo 2 [text] out = out.writeText text true := by
  rw [textHtmlGo]
  split
  · rename_i r heq
    rw [hd] at heq
    cases heq
    exact absurd rfl hc
  · simp only [hsimple, htoggle, hbracket]
    rw [if_neg hlink, if_neg hclose]
    rw [textHtmlGo]

/-- Deferring a full literal and closing yields exactly the processor
applied to it. -/
theorem plain_render_core (proc : String → String) (text : String)
    (hne : text.data ≠ []) :
    ((Writer.init proc).writeText text true).closeOut.html = proc text := by
  have h1 : (Writer.init proc).writeText text true = ⟨[], [], text.data, proc, []⟩ := by
    unfold Writer.writeText Writer.init
    simp
  rw [h1]
  have h2 : (⟨[], [], text.data, proc, []⟩ : Writer).flush =
      ⟨[proc text], [], [], proc, []⟩ := by
    unfold Writer.flush
    simp only
    rw [if_neg hne]
    rw [mk_data]
    simp
  unfold Writer.closeOut
  rw [h2]
  show joinAll [proc text] = proc text
  exact joinAll_singleton _

/-- C8 (amended).  For every input text containing no marker(-initial)
characters, the whole text becomes one deferred literal run, so rendering
it as an inline span produces exactly `auto_link` of the text: URL-shaped
substrings become anchors, everything else is entity-escaped.  The render
equals plain entity-escaping exactly when the URL pattern finds no match;
a URL-shaped marker-free text renders as an anchor, not as itself (see
the counterexample). -/
theorem plain_text_render (text : String)
    (h : ∀ c ∈ text.data, c ∉ textMarkerChars) :
    textHtml text = autoLink text ∧
      (uriFirst text = none → textHtml text = entities text) := by
  match hd : text.data with
  | [] =>
    have htext : text = "" := by
      apply String.ext
      rw [hd]
    subst htext
    exact ⟨by decide, fun _ => by decide⟩
  | c :: cs =>
    have hne : text.data ≠ [] := by rw [hd]; exact List.cons_ne_nil c cs
    have htok : textTokens text = [text] := textTokens_noMarkers text hne h
    have hhead : c ∈ text.data := by rw [hd]; exact List.mem_cons_self c cs
    have hnesc : c ≠ '~' := fun hcq => h c hhead (by rw [hcq]; decide)
    have hn1 : text ≠ "\\\\" := ne_of_marker_head text _ h (by decide)
    have hn2 : text ≠ "-->" := ne_of_marker_head text _ h (by decide)
    have hn3 : text ≠ "<--" := ne_of_marker_head text _ h (by decide)
    have hn4 : text ≠ "//" := ne_of_marker_head text _ h (by decide)
    have hn5 : text ≠ "\"\"" := ne_of_marker_head text _ h (by decide)
    have hn6 : text ≠ "**" := ne_of_marker_head text _ h (by decide)
    have hn7 : text ≠ ",," := ne_of_marker_head text _ h (by decide)
    have hn8 : text ≠ "^^" := ne_of_marker_head text _ h (by decide)
    have hn9 : text ≠ "<<" := ne_of_marker_head text _ h (by decide)
    have hn10 : text ≠ "``" := ne_of_marker_head text _ h (by decide)
    have hn11 : text ≠ "\x7b\x7b" := ne_of_marker_head text _ h (by decide)
    have hn12 : text ≠ "\x7b\x7b\x7b" := ne_of_marker_head text _ h (by decide)
    have hn13 : text ≠ "[[" := ne_of_marker_head text _ h (by decide)
    have hn14 : text ≠ "]]" := ne_of_marker_head text _ h (by decide)
    have e1 : (text == "\\\\") = false := beq_eq_false_iff_ne.mpr hn1
    have e2 : (text == "-->") = false := beq_eq_false_iff_ne.mpr hn2
    have e3 : (text == "<--") = false := beq_eq_false_iff_ne.mpr hn3
    have e4 : (text == "//") = false := beq_eq_false_iff_ne.mpr hn4
    have e5 : (text == "\"\"") = false := beq_eq_false_iff_ne.mpr hn5
    have e6 : (text == "**") = false := beq_eq_false_iff_ne.mpr hn6
    have e7 : (text == ",,") = false := beq_eq_false_iff_ne.mpr hn7
    have e8 : (text == "^^") = false := beq_eq_false_iff_ne.mpr hn8
    have e9 : (text == "<<") = false := beq_eq_false_iff_ne.mpr hn9
    have e10 : (text == "``") = false := beq_eq_false_iff_ne.mpr hn10
    have e11 : (text == "\x7b\x7b") = false := beq_eq_false_iff_ne.mpr hn11
    have e12 : (text == "\x7b\x7b\x7b") = false := beq_eq_false_iff_ne.mpr hn12
    have hsimple : simpleTokens.lookup text = none := by
      simp [simpleTokens, List.lookup, e1, e2, e3]
    have htoggle : toggleTokens.lookup text = none := by
      simp [toggleTokens, List.lookup, e4, e5, e6, e7, e8]
    have hbracket : bracketTokens.lookup text = none := by
      simp [bracketTokens, List.lookup, e9, e10, e11, e12]
    have hstep : ∀ proc, textHtmlWith proc text = proc text := by
      intro proc
      unfold textHtmlWith
      rw [htok]
      simp only [List.length_cons, List.length_nil]
      rw [textHtmlGo_literal text c cs hd hnesc hsimple htoggle hbracket hn13 hn14]
      exact plain_render_core proc text hne
    constructor
    · exact hstep autoLink
    · intro hnone
      unfold uriFirst at hnone
      rw [textHtml, hstep autoLink]
      unfold autoLink
      have hfuel : text.data.length + 1 = cs.length + 1 + 1 := by simp [hd]
      rw [hfuel, autoLinkGo, hnone, mk_data]
      have hwt : (Writer.init entities).writeText text false =
          ⟨(entities text).data.map Char.toString, [], [], entities, []⟩ := by
        unfold Writer.writeText Writer.init Writer.flush
        simp
      rw [hwt]
      show joinAll ((entities text).data.map Char.toString) = entities text
      rw [joinAll_charStrings]

/-- Witness for C8 (amended) at the marker-free text `"good day"`. -/
theorem plain_text_render_witness :
    (∀ c ∈ ("good day" : String).data, c ∉ textMarkerChars) ∧
      textHtml "good day" = autoLink "good day" ∧ textHtml "good day" = "good day" :=
  ⟨by decide, (plain_text_render "good day" (by decide)).1, by decide⟩

/-- Counterexample to C8 as stated: `"www.bcd"` contains no marker
characters at all, yet it does not render as itself modulo
entity-escaping — the deferred buffer is auto-linked at flush time and
the URL pattern matches the whole text, producing an anchor. -/
theorem plain_text_render_cex :
    (∀ c ∈ ("www.bcd" : String).data, c ∉ textMarkerChars) ∧
      textHtml "www.bcd" = "<a href=\"www.bcd\">www.bcd</a>" ∧
      entities "www.bcd" = "www.bcd" ∧
      textHtml "www.bcd" ≠ entities "www.bcd" :=
  ⟨by decide, by decide, by decide, by decide⟩

end Syntaq
